import Mathlib

/-!
Verification development for the PR Autofix Orchestration Engine
(`app-server`): a shallow embedding of the Process Executor, Settings
Store Adapter, Authorization Resolver, Autofix Pipeline and Event
Orchestrator, with theorems about their behaviour.

External collaborators (the hosting-platform REST client, the spawned
subprocesses, the filesystem) are modelled as oracles: each embedded
operation takes the outcome the collaborator would produce (an exit
code/stdout/stderr triple, a parsed issue body, a permission-lookup
result, ...) as explicit input, and the embedded code reproduces the
source's control flow over those outcomes.  Thrown JavaScript errors
are modelled with `Except`; `null`/`undefined` with `Option`.
-/

namespace Autofix

/-- Result of running an external command: exit code plus captured
stdout and stderr (`CommandResult` in `utils/exec.ts`). -/
structure CommandResult where
  code : Int
  stdout : String
  stderr : String
  deriving Repr, DecidableEq

/-- The `close` event of a spawned child process: the exit code is
`none` when the child was terminated by a signal (JavaScript `null`). -/
structure ChildClose where
  code : Option Int
  stdout : String
  stderr : String
  deriving Repr, DecidableEq

/-- `runCommand` from `utils/exec.ts`, at the point the child's
`close` event fires: the promise resolves with the captured output and
with `code ?? 0`, i.e. a `null` exit code is reported as `0`. -/
def runCommand (ev : ChildClose) : CommandResult :=
  { code := ev.code.getD 0, stdout := ev.stdout, stderr := ev.stderr }

/-- Join a list of strings with single spaces (`args.join(" ")`). -/
def joinSpace : List String → String
  | [] => ""
  | [s] => s
  | s :: rest => s ++ " " ++ joinSpace rest

/-- The message of the error thrown by `runRequiredCommand` on a
non-zero exit code. -/
def requiredFailureMessage (command : String) (args : List String) : String :=
  "Command failed: " ++ command ++ " " ++ joinSpace args ++ "."

/-- The decision core of `runRequiredCommand` from `utils/exec.ts`:
given the `CommandResult` produced by `runCommand`, throw exactly when
the reported exit code is non-zero. -/
def runRequiredCommandOfResult (command : String) (args : List String)
    (r : CommandResult) : Except String CommandResult :=
  if r.code ≠ 0 then .error (requiredFailureMessage command args) else .ok r

/-- `runRequiredCommand` from `utils/exec.ts`: run the command, then
throw iff the reported exit code is non-zero. -/
def runRequiredCommand (command : String) (args : List String)
    (ev : ChildClose) : Except String CommandResult :=
  runRequiredCommandOfResult command args (runCommand ev)

/-- Check-run conclusions used by the engine. -/
inductive Conclusion where
  | success
  | failure
  | neutral
  deriving Repr, DecidableEq

/-- The two check-run names opened per processed event
(`CheckRunName` in `github/checks.ts`): `CI/check` and `CI/autofix`. -/
inductive CheckName where
  | check
  | autofix
  deriving Repr, DecidableEq

/-- Installation plan (`utils/plan.ts`). -/
inductive InstallationPlan where
  | free
  | pro
  deriving Repr, DecidableEq

/-- `getPlanForInstallation` from `utils/plan.ts` (later variant): the
guarded test-only `PLAN_OVERRIDE=pro` environment override, else the
static allow-list of pro installation ids. -/
def getPlanForInstallation (planOverridePro : Bool)
    (proInstallationIds : List Nat) (installationId : Nat) : InstallationPlan :=
  if planOverridePro then .pro
  else if proInstallationIds.contains installationId then .pro else .free

/-! ### String helpers and credential sanitisation (`index.ts`, later variant)

JavaScript string primitives (`trim`, `split`, `includes`,
`endsWith`, `toLowerCase`) are implemented here over the character
list of the string, so that every definition evaluates inside the
kernel. -/

/-- Does `pat` occur as a contiguous run inside `l`? -/
def isInfixL (pat : List Char) : List Char → Bool
  | [] => pat.isEmpty
  | c :: rest => pat.isPrefixOf (c :: rest) || isInfixL pat rest

/-- `text.includes(pattern)`. -/
def containsSub (s pat : String) : Bool :=
  isInfixL pat.data s.data

/-- `text.trim()`. -/
def trimStr (s : String) : String :=
  String.mk (((s.data.dropWhile Char.isWhitespace).reverse.dropWhile Char.isWhitespace).reverse)

/-- `text.toLowerCase()` (ASCII). -/
def toLowerStr (s : String) : String :=
  String.mk (s.data.map Char.toLower)

/-- `text.endsWith(pattern)`. -/
def endsWithData (s pat : String) : Bool :=
  pat.data.isSuffixOf s.data

/-- Worker for `splitOnStr`: scan left to right for non-overlapping
occurrences of `pat`; `fuel` bounds the recursion and is at least the
input length plus one at every top-level call. -/
def splitOnL (pat : List Char) : Nat → List Char → List Char → List (List Char)
  | 0, acc, l => [acc.reverse ++ l]
  | fuel + 1, acc, l =>
    match l with
    | [] => [acc.reverse]
    | c :: rest =>
      if pat.isPrefixOf (c :: rest) then
        acc.reverse :: splitOnL pat fuel [] ((c :: rest).drop pat.length)
      else splitOnL pat fuel (c :: acc) rest

/-- `text.split(pattern)` for a non-empty pattern. -/
def splitOnStr (s pat : String) : List String :=
  if pat.data.isEmpty then [s]
  else (splitOnL pat.data (s.data.length + 1) [] s.data).map String.mk

/-- Concatenate a list of strings. -/
def joinAll (parts : List String) : String :=
  parts.foldl (fun acc p => acc ++ p) ""

/-- Worker for `wordTokens`: split into maximal runs of JavaScript
word characters (`[A-Za-z0-9_]`). -/
def wordTokensAux : List Char → List Char → List String
  | [], acc => if acc.isEmpty then [] else [String.mk acc.reverse]
  | c :: rest, acc =>
      if c.isAlphanum ∨ c = '_' then wordTokensAux rest (c :: acc)
      else if acc.isEmpty then wordTokensAux rest []
      else String.mk acc.reverse :: wordTokensAux rest []

/-- The maximal word-character tokens of a string. -/
def wordTokens (s : String) : List String :=
  wordTokensAux s.data []

/-- `truncate` from `index.ts`: cut to `maxLength` characters and mark
the cut. The source defaults `maxLength` to 2000; callers here pass it
explicitly. -/
def truncate (maxLength : Nat) (value : String) : String :=
  if value.length ≤ maxLength then value
  else value.take maxLength ++ "...<truncated>"

/-- Helper for the `/x-access-token:[^@]+@/` replacement: `chunk` is
the text following one occurrence of `"x-access-token:"`; the regex
consumes a non-empty run of non-`@` characters plus the following `@`. -/
def redactTokenChunk (chunk : String) : String :=
  match splitOnStr chunk "@" with
  | [] => chunk
  | [_] => chunk
  | first :: rest =>
      if first = "" then chunk
      else "[redacted]@" ++ String.intercalate "@" rest

/-- The `/x-access-token:[^@]+@/g` replacement of `sanitizeText`
(modelled case-sensitively on the lower-case spelling the code emits). -/
def sanitizeXAccess (s : String) : String :=
  match splitOnStr s "x-access-token:" with
  | [] => s
  | first :: rest =>
      first ++ joinAll (rest.map (fun c => "x-access-token:" ++ redactTokenChunk c))

/-- Split `chunk` into its leading `[^&\s]+` run and the remainder;
`none` when that run is empty (so the regex does not match here). -/
def splitParamValue (chunk : String) : Option String :=
  let valueChars := chunk.data.takeWhile (fun c => c ≠ '&' ∧ ¬ c.isWhitespace)
  if valueChars.isEmpty then none
  else some (String.mk (chunk.data.drop valueChars.length))

/-- The `/key=([^&\s]+)/g` replacement of `sanitizeText` for a given
query-parameter key. -/
def sanitizeParam (key : String) (s : String) : String :=
  match splitOnStr s (key ++ "=") with
  | [] => s
  | first :: rest =>
      first ++ joinAll (rest.map (fun c =>
        match splitParamValue c with
        | none => key ++ "=" ++ c
        | some remainder => key ++ "=[redacted]" ++ remainder))

/-- `sanitizeText` from `index.ts` (later variant): strip embedded
credentials from a message before logging or display. -/
def sanitizeText (s : String) : String :=
  sanitizeParam "token" (sanitizeParam "access_token" (sanitizeXAccess s))

/-- `AutofixError` from `autofix/runner.ts`: message plus the
accumulated pipeline logs. -/
structure AutofixError where
  message : String
  logs : List String
  deriving Repr, DecidableEq

/-- An error caught by the orchestrator's top-level `catch`: either a
hosting-platform error carrying an HTTP status, a pipeline
`AutofixError`, or a plain `Error`. -/
inductive HandlerError where
  | http (status : Nat) (message : String)
  | autofixFailure (e : AutofixError)
  | plain (message : String)
  deriving Repr, DecidableEq

/-- The `message` property of the thrown error. -/
def HandlerError.message : HandlerError → String
  | .http _ m => m
  | .autofixFailure e => e.message
  | .plain m => m

/-- The optional `status` property of the thrown error. -/
def HandlerError.status : HandlerError → Option Nat
  | .http s _ => some s
  | .autofixFailure _ => none
  | .plain _ => none

/-- `getErrorMessage` from `index.ts` (later variant), on `Error`
values: the sanitised message. -/
def getErrorMessage (e : HandlerError) : String :=
  sanitizeText e.message

/-- `getFailureSummaryReason` from `index.ts` (later variant). -/
def getFailureSummaryReason (status : Option Nat) (message : String) : String :=
  match status with
  | some 403 => "missing GitHub App permissions"
  | some 404 => "app not installed or wrong repo/ref"
  | some 422 => "invalid ref/sha or check run update issues"
  | _ => truncate 120 message

/-- `getFailureHint` from `index.ts` (later variant). -/
def getFailureHint (status : Option Nat) : String :=
  match status with
  | some 403 => "Ensure the GitHub App has the required permissions (Contents, Pull requests, Issues, Checks) and reinstall or refresh the installation."
  | some 404 => "Verify the GitHub App is installed on the repo and the repo name/ref are correct."
  | some 422 => "Confirm the ref/SHA exists and check runs can be updated for this commit."
  | _ => "Check the error details and resolve the underlying issue before rerunning."

/-- The user-facing output built from a caught top-level error. -/
structure FailureOutput where
  summary : String
  text : String
  deriving Repr, DecidableEq

/-- `buildFailureOutput` from `index.ts` (later variant). -/
def buildFailureOutput (e : HandlerError) : FailureOutput :=
  let status := e.status
  let message := getErrorMessage e
  let summary := "Autofix failed: " ++ getFailureSummaryReason status message
  let hint := getFailureHint status
  let textLines :=
    ["How to fix: " ++ hint] ++
    (if status = some 403 ∨ status = some 404 ∨ status = some 422 then []
     else ["Error: " ++ message]) ++
    ["Docs: docs/TROUBLESHOOTING.md"]
  ⟨summary, String.intercalate "\n" textLines⟩

/-! ### Settings Store Adapter (`github/settingsIssue.ts`, later variant)

The issue body is UTF-8 JSON text; we model the value `JSON.parse`
produces (or its absence when the body is missing, empty or
malformed) rather than re-implementing the string-level JSON parser,
and model the serialized object `JSON.stringify` receives. -/

/-- A parsed JSON value. -/
inductive JVal where
  | null
  | bool (b : Bool)
  | num (n : Int)
  | str (s : String)
  | arr (elems : List JVal)
  | obj (fields : List (String × JVal))

/-- Look up a key in a parsed JSON object (keys are unique after
`JSON.parse`). -/
def lookupField : List (String × JVal) → String → Option JVal
  | [], _ => none
  | (k, v) :: rest, key => if k = key then some v else lookupField rest key

/-- Set a key in a JSON object as the object spread plus assignment
does: overwrite in place when present, append otherwise. -/
def setField : List (String × JVal) → String → JVal → List (String × JVal)
  | [], key, v => [(key, v)]
  | (k, w) :: rest, key, v =>
      if k = key then (key, v) :: rest else (k, w) :: setField rest key v

/-- The attributed enabler recorded in `unsafeFixesEnabledBy`. -/
structure UnsafeFixesEnabledBy where
  login : String
  id : Int
  deriving Repr, DecidableEq

/-- `RepoSettings` from `github/settingsIssue.ts` (later variant). -/
structure RepoSettings where
  enableUnsafeFixes : Bool
  unsafeFixesEnabledBy : Option UnsafeFixesEnabledBy
  unsafeFixesEnabledAt : Option String
  deriving Repr, DecidableEq

/-- `defaultSettings`: everything disabled. -/
def defaultSettings : RepoSettings := ⟨false, none, none⟩

/-- Result of parsing a settings issue body: the extracted settings
and, when the body parsed to a JSON object, its raw field list. -/
structure ParsedSettings where
  settings : RepoSettings
  raw : Option (List (String × JVal))

/-- `parseSettingsIssueBody` from `github/settingsIssue.ts` (later
variant). `none` stands for an absent, empty or malformed body. A
non-object JSON value yields the defaults (a JSON array passes the
source's `typeof` check but cannot carry these string keys, so it
yields the defaults as well and, having `enableUnsafeFixes = false`,
never reaches the rewrite path). -/
def parseSettingsIssueBody (body : Option JVal) : ParsedSettings :=
  match body with
  | none => ⟨defaultSettings, none⟩
  | some v =>
    match v with
    | .obj fields =>
        let enable :=
          match lookupField fields "enableUnsafeFixes" with
          | some (.bool b) => b
          | _ => false
        let enabledBy :=
          match lookupField fields "unsafeFixesEnabledBy" with
          | some (.obj byFields) =>
              match lookupField byFields "login", lookupField byFields "id" with
              | some (.str l), some (.num i) => some (⟨l, i⟩ : UnsafeFixesEnabledBy)
              | _, _ => none
          | _ => none
        let enabledAt :=
          match lookupField fields "unsafeFixesEnabledAt" with
          | some (.str s) => some s
          | _ => none
        ⟨⟨enable, enabledBy, enabledAt⟩, some fields⟩
    | _ => ⟨defaultSettings, none⟩

/-- JSON encoding of the attribution field written back. -/
def encodeEnabledBy : Option UnsafeFixesEnabledBy → JVal
  | none => .null
  | some e => .obj [("login", .str e.login), ("id", .num e.id)]

/-- JSON encoding of the timestamp field written back. -/
def encodeEnabledAt : Option String → JVal
  | none => .null
  | some s => .str s

/-- `serializeSettingsBody` from `github/settingsIssue.ts` (later
variant): spread the raw parsed object, then overwrite the three known
keys from the settings record (we keep the object that
`JSON.stringify` receives). -/
def serializeSettingsBody (raw : List (String × JVal))
    (settings : RepoSettings) : List (String × JVal) :=
  setField (setField (setField raw
    "enableUnsafeFixes" (.bool settings.enableUnsafeFixes))
    "unsafeFixesEnabledBy" (encodeEnabledBy settings.unsafeFixesEnabledBy))
    "unsafeFixesEnabledAt" (encodeEnabledAt settings.unsafeFixesEnabledAt)

/-- The designated settings issue as found by title match: its body
(as parsed JSON, `none` when absent/empty/malformed), its opening
user, and its timestamps. -/
structure SettingsIssue where
  number : Nat
  body : Option JVal
  user : Option UnsafeFixesEnabledBy
  updatedAt : Option String
  createdAt : Option String

/-- Outcome of listing the repository's open issues: whether the call
succeeded, and the title-matched settings issue if one exists. -/
structure SettingsFetch where
  listOk : Bool
  issue : Option SettingsIssue

/-- `getRepoSettingsFromIssue` from `github/settingsIssue.ts` (later
variant). Returns the resolved settings and, when the adapter rewrites
the issue body to backfill attribution, the object written back
(recorded whether or not the platform accepts the update). -/
def getRepoSettingsFromIssue (f : SettingsFetch) :
    RepoSettings × Option (List (String × JVal)) :=
  if ¬ f.listOk then (defaultSettings, none)
  else
    match f.issue with
    | none => (defaultSettings, none)
    | some issue =>
      let parsed := parseSettingsIssueBody issue.body
      let settings := parsed.settings
      if settings.enableUnsafeFixes then
        let enabledBy := settings.unsafeFixesEnabledBy.orElse (fun _ => issue.user)
        let enabledAt := settings.unsafeFixesEnabledAt.orElse
          (fun _ => issue.updatedAt.orElse (fun _ => issue.createdAt))
        let needsUpdate :=
          settings.unsafeFixesEnabledBy.isNone || settings.unsafeFixesEnabledAt.isNone
        match needsUpdate, parsed.raw, enabledBy, enabledAt with
        | true, some raw, some b, some a =>
            let updated : RepoSettings := ⟨settings.enableUnsafeFixes, some b, some a⟩
            (updated, some (serializeSettingsBody raw updated))
        | _, _, _, _ =>
            ({ settings with
                unsafeFixesEnabledBy := enabledBy,
                unsafeFixesEnabledAt := enabledAt }, none)
      else (settings, none)

/-! ### Authorization Resolver (`index.ts`, later variant) -/

/-- The fixed skip reason attached whenever unsafe fixes are requested
but not verified to have been enabled by a repository admin. -/
def unsafeFixesAdminSkipMessage : String :=
  "Unsafe fixes requested but not enabled by a repo admin; skipping."

/-- `verifyRepoAdmin` from `index.ts` (later variant): the live
permission lookup for a username; an exception from the lookup is
caught and treated as not-admin. -/
def verifyRepoAdmin (permissionLookup : String → Except String String)
    (username : String) : Bool :=
  match permissionLookup username with
  | .ok permission => permission == "admin"
  | .error _ => false

/-- The resolver's result record. -/
structure UnsafeFixesSetting where
  requested : Bool
  adminVerified : Bool
  skipReason : Option String
  deriving Repr, DecidableEq

/-- `resolveUnsafeFixesSetting` from `index.ts` (later variant). The
JavaScript guard `!enabledBy?.login` treats a missing enabler and an
empty login alike. -/
def resolveUnsafeFixesSetting (f : SettingsFetch)
    (permissionLookup : String → Except String String) : UnsafeFixesSetting :=
  let settings := (getRepoSettingsFromIssue f).1
  if ¬ settings.enableUnsafeFixes then ⟨false, false, none⟩
  else
    match settings.unsafeFixesEnabledBy with
    | none => ⟨true, false, some unsafeFixesAdminSkipMessage⟩
    | some enabledBy =>
      if enabledBy.login = "" then ⟨true, false, some unsafeFixesAdminSkipMessage⟩
      else if verifyRepoAdmin permissionLookup enabledBy.login then ⟨true, true, none⟩
      else ⟨true, false, some unsafeFixesAdminSkipMessage⟩

/-- The final gate computed by `handlePullRequestEvent` (later
variant): `plan === "pro" && requested && adminVerified`. -/
def decideUnsafeFixes (plan : InstallationPlan) (s : UnsafeFixesSetting) : Bool :=
  plan == .pro && s.requested && s.adminVerified

/-! ### Autofix Pipeline (`autofix/runner.ts`)

The pipeline is a strict sequence of subprocess calls inside one
`try/catch/finally`.  We embed it in a little state-plus-exception
monad: the state records the effect trace (commands issued, workspace
creation/removal) and the accumulated log lines, and a thrown
JavaScript error is an `Except.error`.  The environment `ExecEnv`
supplies each subprocess outcome and the three configuration-file
contents the pipeline inspects. -/

/-- An observable effect of one pipeline run. -/
inductive RunnerEff where
  | mkTempDir
  | rmTempDir
  | cmd (name : String) (args : List String)
  deriving Repr, DecidableEq

/-- Pipeline state: effect trace and log lines, both append-only. -/
structure RunSt where
  trace : List RunnerEff
  logs : List String
  deriving Repr, DecidableEq

/-- The pipeline monad: state plus thrown errors (state is kept when
an error is thrown, as the enclosing `finally`/`catch` observe it). -/
def M (α : Type) := RunSt → Except String α × RunSt

/-- Monadic return for `M`. -/
def mret {α : Type} (a : α) : M α := fun st => (.ok a, st)

/-- Monadic bind for `M`. -/
def mbind {α β : Type} (x : M α) (f : α → M β) : M β := fun st =>
  match x st with
  | (.ok a, st') => f a st'
  | (.error e, st') => (.error e, st')

instance : Monad M where
  pure := mret
  bind := mbind

/-- Throw a JavaScript error. -/
def mthrow {α : Type} (e : String) : M α := fun st => (.error e, st)

/-- Record that an external command was spawned. -/
def emitCmd (name : String) (args : List String) : M Unit := fun st =>
  (.ok (), { st with trace := st.trace ++ [.cmd name args] })

/-- `logs.push(line)`. -/
def pushLog (line : String) : M Unit := fun st =>
  (.ok (), { st with logs := st.logs ++ [line] })

/-- Read the accumulated log lines. -/
def getLogs : M (List String) := fun st => (.ok st.logs, st)

/-- Run an `M` computation from a given state. -/
def runM {α : Type} (x : M α) (st : RunSt) : Except String α × RunSt := x st

/-- `runCommand(name, args, { cwd })` inside the pipeline: spawn the
command and take the environment-supplied result. -/
def execCommand (name : String) (args : List String) (r : CommandResult) :
    M CommandResult := do
  emitCmd name args
  pure r

/-- `runRequiredCommand(name, args, ...)` inside the pipeline: spawn
the command and throw exactly when the reported exit code is
non-zero (via `runRequiredCommandOfResult`). -/
def execRequired (name : String) (args : List String) (r : CommandResult) :
    M CommandResult := do
  emitCmd name args
  match runRequiredCommandOfResult name args r with
  | .ok res => pure res
  | .error e => mthrow e

/-- Subprocess outcomes and inspected file contents for one pipeline
run (`none` content means the file does not exist). -/
structure ExecEnv where
  gitClone : CommandResult
  gitFetch : CommandResult
  gitCheckout : CommandResult
  gitConfigName : CommandResult
  gitConfigEmail : CommandResult
  ruffVersion : CommandResult
  ruffFormat : CommandResult
  ruffCheckFix : CommandResult
  pyproject : Option String
  setupCfg : Option String
  requirements : Option String
  blackVersion : CommandResult
  pipInstallBlack : CommandResult
  blackRun : CommandResult
  gitStatus : CommandResult
  gitAdd : CommandResult
  gitCommit : CommandResult
  gitPush : CommandResult
  ruffFormatCheck : CommandResult
  ruffLintCheck : CommandResult

/-- `/\bblack\b/i` on a requirements file: some maximal `\w+` token
equals `black` (ASCII word characters, case-insensitively). -/
def containsWordBlack (s : String) : Bool :=
  (wordTokens (toLowerStr s)).contains "black"

/-- `isBlackConfigured` from `autofix/runner.ts`: a `[tool.black]`
table in pyproject.toml, a `[black]` section in setup.cfg, or the word
`black` in requirements.txt. -/
def isBlackConfigured (env : ExecEnv) : Bool :=
  (match env.pyproject with
   | some content => containsSub content "[tool.black]"
   | none => false) ||
  (match env.setupCfg with
   | some content => containsSub content "[black]"
   | none => false) ||
  (match env.requirements with
   | some content => containsWordBlack content
   | none => false)

/-- The fixed marker phrase for withheld ("hidden") fixes. -/
def hiddenFixesMarker : String :=
  "hidden fixes can be enabled with the --unsafe-fixes option"

/-- `hasHiddenFixes` from `autofix/runner.ts`: the case-insensitive
marker test over captured outputs. -/
def hasHiddenFixes (outputs : List String) : Bool :=
  outputs.any (fun output => containsSub (toLowerStr output) hiddenFixesMarker)

/-- Arguments of the lint-fix step: `ruff check . --fix`, plus
`--unsafe-fixes` exactly when the gate enabled unsafe fixes. -/
def checkFixArgs (enableUnsafeFixes : Bool) : List String :=
  ["check", ".", "--fix"] ++ if enableUnsafeFixes then ["--unsafe-fixes"] else []

/-- `AutofixInput` from `autofix/runner.ts`. -/
structure AutofixInput where
  token : String
  headRepoFullName : String
  headRef : String
  headSha : String
  commitMessage : String
  enableUnsafeFixes : Bool
  unsafeFixesSkipReason : Option String
  deriving Repr, DecidableEq

/-- `AutofixResult` from `autofix/runner.ts`. In the source,
`checkConclusion` ranges over success/failure and `autofixConclusion`
over success/neutral; both are embedded in the shared `Conclusion`
type. -/
structure AutofixResult where
  checkConclusion : Conclusion
  autofixConclusion : Conclusion
  summary : String
  details : String
  appliedFixes : Bool
  unsafeFixesUsed : Bool
  hiddenFixesAvailable : Bool
  deriving Repr, DecidableEq

/-- The remote URL with the short-lived installation credential. -/
def repoUrl (input : AutofixInput) : String :=
  "https://x-access-token:" ++ input.token ++ "@github.com/" ++
    input.headRepoFullName ++ ".git"

/-- The uniquely named ephemeral workspace directory produced by
`mkdtemp` (its random suffix is abstracted). -/
def tempDirName : String := "/tmp/python-autofix-XXXXXX"

/-- Pipeline stage 1: clone, fetch, hard-reset a local branch to the
remote head ref, and set the committer identity; every failure is
fatal. -/
def gitSetup (env : ExecEnv) (input : AutofixInput) : M Unit := do
  let _ ← execRequired "git" ["clone", repoUrl input, tempDirName] env.gitClone
  let _ ← execRequired "git" ["fetch", "origin", input.headRef] env.gitFetch
  let _ ← execRequired "git"
    ["checkout", "-B", input.headRef, "origin/" ++ input.headRef] env.gitCheckout
  let _ ← execRequired "git"
    ["config", "user.name", "python-autofix-pro[bot]"] env.gitConfigName
  let _ ← execRequired "git"
    ["config", "user.email", "python-autofix-pro@users.noreply.github.com"]
    env.gitConfigEmail
  pushLog ("Checked out " ++ input.headRef ++ " at " ++ input.headSha ++ ".")

/-- `ensureRuff` from `autofix/runner.ts`: the formatter/linter must
be resolvable; its absence is fatal. -/
def ensureRuff (env : ExecEnv) : M Unit := do
  let versionResult ← execCommand "ruff" ["--version"] env.ruffVersion
  if versionResult.code = 0 then
    pushLog ("ruff detected: " ++ trimStr versionResult.stdout)
  else do
    if trimStr versionResult.stderr ≠ "" then pushLog (trimStr versionResult.stderr)
      else pure ()
    pushLog "ruff not found in PATH. Ensure the server image includes ruff."
    mthrow "ruff is required but missing."

/-- `ensureBlack` from `autofix/runner.ts`: install the secondary
formatter on demand when missing. -/
def ensureBlack (env : ExecEnv) : M Unit := do
  let versionResult ← execCommand "python" ["-m", "black", "--version"] env.blackVersion
  if versionResult.code = 0 then
    pushLog ("black detected: " ++ trimStr versionResult.stdout)
  else do
    pushLog "black not found. Installing black via pip."
    let _ ← execRequired "python" ["-m", "pip", "install", "black"] env.pipInstallBlack
    pure ()

/-- Outcome of the formatting plus lint-fix stage. -/
structure FormatOutcome where
  hiddenFixesAvailable : Bool
  unsafeFixesUsed : Bool
  deriving Repr, DecidableEq

/-- `runRuffFormatting` from `autofix/runner.ts`: `ruff format .` is
fatal on non-zero exit; `ruff check . --fix` (with `--unsafe-fixes`
iff gated on) is not, and its combined output is scanned for the
hidden-fixes marker. -/
def runRuffFormatting (env : ExecEnv) (enableUnsafeFixes : Bool) : M FormatOutcome := do
  let formatResult ← execCommand "ruff" ["format", "."] env.ruffFormat
  pushLog (trimStr formatResult.stdout)
  if formatResult.code ≠ 0 then do
    pushLog (trimStr formatResult.stderr)
    mthrow "ruff format failed."
  else do
    let checkFixResult ← execCommand "ruff" (checkFixArgs enableUnsafeFixes) env.ruffCheckFix
    pushLog (trimStr checkFixResult.stdout)
    if checkFixResult.code ≠ 0 then pushLog (trimStr checkFixResult.stderr) else pure ()
    pure ⟨hasHiddenFixes [checkFixResult.stdout, checkFixResult.stderr], enableUnsafeFixes⟩

/-- Outcome of the re-verification stage. -/
structure VerifyOutcome where
  passed : Bool
  hiddenFixesAvailable : Bool
  deriving Repr, DecidableEq

/-- `runRuffVerification` from `autofix/runner.ts`: re-run
`ruff format --check .` and `ruff check .`; passed iff both exit 0. -/
def runRuffVerification (env : ExecEnv) : M VerifyOutcome := do
  let formatCheck ← execCommand "ruff" ["format", "--check", "."] env.ruffFormatCheck
  pushLog (trimStr formatCheck.stdout)
  let lintCheck ← execCommand "ruff" ["check", "."] env.ruffLintCheck
  pushLog (trimStr lintCheck.stdout)
  if formatCheck.code ≠ 0 ∨ lintCheck.code ≠ 0 then do
    pushLog (trimStr formatCheck.stderr)
    pushLog (trimStr lintCheck.stderr)
    pure ⟨false, hasHiddenFixes [lintCheck.stdout, lintCheck.stderr]⟩
  else
    pure ⟨true, hasHiddenFixes [lintCheck.stdout, lintCheck.stderr]⟩

/-- Pipeline stage 5: run the secondary formatter when its
configuration marker is detected; its failure is logged, not fatal. -/
def runBlackIfConfigured (env : ExecEnv) : M Unit := do
  if isBlackConfigured env then do
    pushLog "black configuration detected; running black."
    ensureBlack env
    let blackResult ← execCommand "python" ["-m", "black", "."] env.blackRun
    pushLog (trimStr blackResult.stdout)
    if blackResult.code ≠ 0 then pushLog (trimStr blackResult.stderr) else pure ()
  else pure ()

/-- Pipeline stage 6: if the working tree changed, stage, commit and
push to the PR's own head ref; returns `appliedFixes`. -/
def commitAndPush (env : ExecEnv) (input : AutofixInput) : M Bool := do
  let statusResult ← execCommand "git" ["status", "--porcelain"] env.gitStatus
  if 0 < (trimStr statusResult.stdout).length then do
    let _ ← execRequired "git" ["add", "-A"] env.gitAdd
    let _ ← execRequired "git" ["commit", "-m", input.commitMessage] env.gitCommit
    let _ ← execRequired "git" ["push", "origin", "HEAD:" ++ input.headRef] env.gitPush
    pushLog "Applied fixes and pushed to the PR head branch."
    pure true
  else pure false

/-- The at-most-one summary suffix, in the source's fixed priority:
unsafe-fixes note, else skip reason, else hidden-fixes upsell. -/
def summarySuffix (unsafeFixesUsed : Bool) (skipReason : Option String)
    (hiddenFixesAvailable : Bool) : String :=
  let suffixes : List String :=
    if unsafeFixesUsed then ["Unsafe fixes enabled (Pro)."]
    else
      match skipReason with
      | some reason => [reason]
      | none =>
          if hiddenFixesAvailable then
            ["Pro can enable Unsafe Fixes to attempt to auto-fix these."]
          else []
  if suffixes.length > 0 then " " ++ String.intercalate " " suffixes else ""

/-- The synthesized summary line of a completed run. -/
def buildRunSummary (passed appliedFixes : Bool) (suffix : String) : String :=
  if passed then
    if appliedFixes then "Applied Python formatting fixes." ++ suffix
    else "No formatting changes needed." ++ suffix
  else "Formatting completed, but lint checks still report issues." ++ suffix

/-- `logs.filter(Boolean).join("\n")`. -/
def joinLogs (logs : List String) : String :=
  String.intercalate "\n" (logs.filter (fun l => l ≠ ""))

/-- The `try` block of `runAutofix` from `autofix/runner.ts`: the
staged pipeline up to result synthesis. -/
def runAutofixBody (input : AutofixInput) (env : ExecEnv) : M AutofixResult := do
  gitSetup env input
  ensureRuff env
  let ruffFormatResult ← runRuffFormatting env input.enableUnsafeFixes
  let unsafeFixesUsed := ruffFormatResult.unsafeFixesUsed
  if unsafeFixesUsed then pushLog "Unsafe fixes enabled (Pro)." else pure ()
  runBlackIfConfigured env
  let appliedFixes ← commitAndPush env input
  let verificationResult ← runRuffVerification env
  let hiddenFixesAvailable :=
    ruffFormatResult.hiddenFixesAvailable || verificationResult.hiddenFixesAvailable
  let suffix := summarySuffix unsafeFixesUsed input.unsafeFixesSkipReason hiddenFixesAvailable
  let logLines ← getLogs
  pure {
    checkConclusion := if verificationResult.passed then .success else .failure,
    autofixConclusion := .success,
    summary := buildRunSummary verificationResult.passed appliedFixes suffix,
    details := joinLogs logLines,
    appliedFixes := appliedFixes,
    unsafeFixesUsed := unsafeFixesUsed,
    hiddenFixesAvailable := hiddenFixesAvailable }

/-- Result of one `runAutofix` call: the returned value or thrown
`AutofixError`, plus the observable effect trace (workspace creation,
spawned commands, workspace removal). -/
structure RunnerOutput where
  outcome : Except AutofixError AutofixResult
  trace : List RunnerEff

/-- `runAutofix` from `autofix/runner.ts`: `mkdtemp`, the `try` body,
the `catch` wrapping any thrown error into an `AutofixError` carrying
the filtered logs, and the `finally` that removes the ephemeral
workspace on every exit path. -/
def runAutofix (input : AutofixInput) (env : ExecEnv) : RunnerOutput :=
  let bodyRun := runM (runAutofixBody input env) ⟨[], []⟩
  let trace := RunnerEff.mkTempDir :: bodyRun.2.trace ++ [RunnerEff.rmTempDir]
  match bodyRun.1 with
  | .ok r => ⟨.ok r, trace⟩
  | .error msg =>
      ⟨.error ⟨msg, (bodyRun.2.logs ++ ["Autofix failed: " ++ msg]).filter (fun l => l ≠ "")⟩,
        trace⟩

/-- Whether the ephemeral workspace directory exists after an effect
prefix has executed. -/
def tempDirStep : Bool → RunnerEff → Bool
  | _, .mkTempDir => true
  | _, .rmTempDir => false
  | present, .cmd _ _ => present

/-- Whether the ephemeral workspace directory exists once a whole
effect trace has executed (it does not exist beforehand). -/
def tempDirExistsAfter (trace : List RunnerEff) : Bool :=
  trace.foldl tempDirStep false

/-! ### Inbound payload and context extraction (`github/pullRequests.ts`) -/

/-- `pull_request.head.repo` of the inbound payload. -/
structure HeadRepo where
  fullName : Option String

/-- `pull_request.head` of the inbound payload. -/
structure PullHead where
  sha : Option String
  ref : Option String
  repo : Option HeadRepo

/-- `pull_request` of the inbound payload. -/
structure PullRequestData where
  number : Option Nat
  head : Option PullHead
  htmlUrl : Option String

/-- `repository.owner` of the inbound payload. -/
structure RepoOwner where
  login : Option String

/-- `repository` of the inbound payload. -/
structure RepositoryData where
  owner : Option RepoOwner
  name : Option String

/-- The inbound pull-request payload, with every probed field
optional (`undefined` is `none`, and a missing intermediate object is
`none` at that level). -/
structure PullPayload where
  action : Option String
  repository : Option RepositoryData
  pullRequest : Option PullRequestData
  installation : Option Nat

/-- `PullRequestContext` from `github/pullRequests.ts`. -/
structure PullRequestContext where
  owner : String
  repo : String
  pullNumber : Nat
  headSha : String
  headRef : String
  headRepoFullName : String
  htmlUrl : String
  deriving Repr, DecidableEq

/-- `extractPullRequestContext` from `github/pullRequests.ts`
(validating variant): optional-chain every field and return `null`
when any is missing or falsy (an empty string, or a zero pull
number). -/
def extractPullRequestContext (p : PullPayload) : Option PullRequestContext :=
  let owner := (p.repository.bind RepositoryData.owner).bind RepoOwner.login
  let repoName := p.repository.bind RepositoryData.name
  let pullNumber := p.pullRequest.bind PullRequestData.number
  let headSha := (p.pullRequest.bind PullRequestData.head).bind PullHead.sha
  let headRef := (p.pullRequest.bind PullRequestData.head).bind PullHead.ref
  let headRepoFullName :=
    ((p.pullRequest.bind PullRequestData.head).bind PullHead.repo).bind HeadRepo.fullName
  let htmlUrl := p.pullRequest.bind PullRequestData.htmlUrl
  match owner, repoName, pullNumber, headSha, headRef, headRepoFullName, htmlUrl with
  | some o, some r, some n, some s, some rf, some f, some u =>
      if o = "" ∨ r = "" ∨ n = 0 ∨ s = "" ∨ rf = "" ∨ f = "" ∨ u = "" then none
      else some ⟨o, r, n, s, rf, f, u⟩
  | _, _, _, _, _, _, _ => none

/-- The context the non-validating extractor produces: each field may
still be `undefined`. -/
structure NVContext where
  owner : Option String
  repo : Option String
  pullNumber : Option Nat
  headSha : Option String
  headRef : Option String
  headRepoFullName : Option String
  htmlUrl : Option String
  deriving Repr, DecidableEq

/-- `extractPullRequestContext` from `github/pullRequests.ts`
(non-validating variant): plain property access — a missing
intermediate object raises a `TypeError` (`Except.error`), while a
missing leaf field is just `undefined` in the returned context. -/
def extractPullRequestContextNV (p : PullPayload) : Except Unit NVContext :=
  match p.repository with
  | none => .error ()
  | some repository =>
    match repository.owner with
    | none => .error ()
    | some owner =>
      match p.pullRequest with
      | none => .error ()
      | some pr =>
        match pr.head with
        | none => .error ()
        | some head =>
          match head.repo with
          | none => .error ()
          | some headRepo =>
            .ok ⟨owner.login, repository.name, pr.number, head.sha, head.ref,
                 headRepo.fullName, pr.htmlUrl⟩

/-- JavaScript string interpolation of a possibly-`undefined` value. -/
def undefinedToString : Option String → String
  | some s => s
  | none => "undefined"

/-- Coerce a non-validated context to the field types downstream code
assumes (`undefined` leaks through as the string "undefined" where
interpolated, and as 0 where a number is expected). -/
def ctxOfNV (nv : NVContext) : PullRequestContext :=
  ⟨undefinedToString nv.owner, undefinedToString nv.repo, nv.pullNumber.getD 0,
   undefinedToString nv.headSha, undefinedToString nv.headRef,
   undefinedToString nv.headRepoFullName, undefinedToString nv.htmlUrl⟩

/-- `containsPythonChanges` from `github/pullRequests.ts`. -/
def containsPythonChanges (files : List String) : Bool :=
  files.any (fun file => endsWithData file ".py")

/-! ### Event Orchestrator (`index.ts`, later variant) -/

/-- The supported pull-request actions. -/
def supportedActions : List String :=
  ["opened", "synchronize", "reopened", "ready_for_review"]

/-- The process-lifetime comment dedup ledger
(`lastCommentedShaByPull`): pull key to last commented head sha. -/
def Ledger := List (String × String)

/-- `Map.get` on the ledger. -/
def ledgerGet : Ledger → String → Option String
  | [], _ => none
  | (k, v) :: rest, key => if k = key then some v else ledgerGet rest key

/-- `Map.set` on the ledger. -/
def ledgerSet : Ledger → String → String → Ledger
  | [], key, sha => [(key, sha)]
  | (k, v) :: rest, key, sha =>
      if k = key then (key, sha) :: rest else (k, v) :: ledgerSet rest key sha

/-- `getPullKey` from `index.ts`. -/
def getPullKey (owner repo : String) (pullNumber : Nat) : String :=
  owner ++ "/" ++ repo ++ "#" ++ toString pullNumber

/-- `safePostPullRequestComment` from `index.ts` (later variant):
skip when the last commented sha for this pull key equals the event's
head sha; otherwise attempt the comment API call (`postSucceeds` is
its outcome) and record the sha only on success. Returns whether a
comment was posted, plus the updated ledger. -/
def safePostPullRequestComment (ledger : Ledger) (owner repo : String)
    (pullNumber : Nat) (headSha : String) (postSucceeds : Bool) : Bool × Ledger :=
  let pullKey := getPullKey owner repo pullNumber
  if ledgerGet ledger pullKey = some headSha then (false, ledger)
  else if postSucceeds then (true, ledgerSet ledger pullKey headSha)
  else (false, ledger)

/-- An externally visible action of one handled event. -/
inductive Effect where
  | checkCreate (name : CheckName)
  | checkUpdate (name : CheckName) (conclusion : Conclusion) (summary : String) (text : String)
  | pipelineRun (enableUnsafeFixes : Bool)
  | commentPosted (body : String)
  deriving Repr, DecidableEq

/-- Collaborator outcomes for one handled event: the inbound payload,
the plan configuration, and the result of each external call the
orchestrator makes. Check-run update calls are modelled as accepted by
the platform. -/
structure HandlerEnv where
  payload : PullPayload
  planOverridePro : Bool
  proInstallationIds : List Nat
  tokenResult : Except String String
  createCheck : CheckName → Option Nat
  filesResult : Except HandlerError (List String)
  settingsFetch : SettingsFetch
  permissionLookup : String → Except String String
  exec : ExecEnv
  postCommentOk : Bool
  docsUrl : Option String

/-- What one handled event produced: the usage-record outcome (`none`
when the handler returned before the `try`/`finally`), the effect
trace, and the updated comment ledger. -/
structure HandlerOutput where
  usage : Option String
  effects : List Effect
  ledger : Ledger

/-- The optional `"\n\nDocs: ..."` comment suffix. -/
def docsLine : Option String → String
  | some url => if url = "" then "" else "\n\nDocs: " ++ url
  | none => ""

/-- The comment body posted after a completed pipeline run. -/
def resultCommentBody (summary htmlUrl : String) (docsUrl : Option String) : String :=
  "### Python Autofix Pro\n\n" ++ summary ++ "\n\nPR: " ++ htmlUrl ++ docsLine docsUrl

/-- The comment body posted from the top-level `catch`. -/
def errorCommentBody (summary : String) (docsUrl : Option String) : String :=
  "### Python Autofix Pro\n\n" ++ summary ++ docsLine docsUrl

/-- The fixed summary of the no-Python-changes short circuit. -/
def skippedSummary : String := "Skipped: no Python changes."

/-- The fixed autofix commit message. -/
def commitMessageText : String := "chore(autofix): python formatting"

/-- The top-level `catch` block of `handlePullRequestEvent` (later
variant), reached once both check runs were opened: finalize both
tracked check runs with conclusion `failure` and the classified
failure output, then attempt a deduplicated comment. -/
def handlerCatch (env : HandlerEnv) (ledger : Ledger) (ctx : PullRequestContext)
    (effects : List Effect) (e : HandlerError) : HandlerOutput :=
  let failureOutput := buildFailureOutput e
  let finalized := effects ++
    [.checkUpdate .check .failure failureOutput.summary failureOutput.text,
     .checkUpdate .autofix .failure failureOutput.summary failureOutput.text]
  let body := errorCommentBody failureOutput.summary env.docsUrl
  let posted := safePostPullRequestComment ledger ctx.owner ctx.repo ctx.pullNumber
    ctx.headSha env.postCommentOk
  ⟨some "error", finalized ++ (if posted.1 then [.commentPosted body] else []), posted.2⟩

/-- The body of `handlePullRequestEvent` (later variant) from the
point a validated context and installation id exist: the `try` block
(token, two check creates, changed files, short circuit, authorization
resolution, pipeline, finalization, comment), its `catch`, and the
usage record emitted in `finally`. -/
def handlerMain (env : HandlerEnv) (ledger : Ledger) (ctx : PullRequestContext)
    (installationId : Nat) : HandlerOutput :=
  let plan := getPlanForInstallation env.planOverridePro env.proInstallationIds installationId
  match env.tokenResult with
  | .error _ => ⟨some "error", [], ledger⟩
  | .ok token =>
    let effects1 : List Effect := [.checkCreate .check]
    match env.createCheck .check with
    | none => ⟨some "check_create_failed", effects1, ledger⟩
    | some _ =>
      let effects2 := effects1 ++ [.checkCreate .autofix]
      match env.createCheck .autofix with
      | none => ⟨some "check_create_failed", effects2, ledger⟩
      | some _ =>
        match env.filesResult with
        | .error e => handlerCatch env ledger ctx effects2 e
        | .ok files =>
          if ¬ containsPythonChanges files then
            ⟨some "skipped_no_python",
              effects2 ++
                [.checkUpdate .check .success skippedSummary skippedSummary,
                 .checkUpdate .autofix .success skippedSummary skippedSummary],
              ledger⟩
          else
            let setting := resolveUnsafeFixesSetting env.settingsFetch env.permissionLookup
            let enable := decideUnsafeFixes plan setting
            let input : AutofixInput :=
              { token := token, headRepoFullName := ctx.headRepoFullName,
                headRef := ctx.headRef, headSha := ctx.headSha,
                commitMessage := commitMessageText,
                enableUnsafeFixes := enable,
                unsafeFixesSkipReason := setting.skipReason }
            let run := runAutofix input env.exec
            let effects3 := effects2 ++ [.pipelineRun enable]
            match run.outcome with
            | .error e => handlerCatch env ledger ctx effects3 (.autofixFailure e)
            | .ok res =>
              let resultTag :=
                if res.checkConclusion == .failure then "completed_failure"
                else "completed_success"
              let effects4 := effects3 ++
                [.checkUpdate .check res.checkConclusion res.summary res.details,
                 .checkUpdate .autofix res.autofixConclusion res.summary res.details]
              if res.appliedFixes || res.checkConclusion == .failure then
                let body := resultCommentBody res.summary ctx.htmlUrl env.docsUrl
                let posted := safePostPullRequestComment ledger ctx.owner ctx.repo
                  ctx.pullNumber ctx.headSha env.postCommentOk
                ⟨some resultTag,
                  effects4 ++ (if posted.1 then [.commentPosted body] else []), posted.2⟩
              else ⟨some resultTag, effects4, ledger⟩

/-- `handlePullRequestEvent` (later variant) paired with the
validating extractor: the guard cascade before the `try` block, then
`handlerMain`. Every early return happens before any check-run API
call. -/
def handlePullRequestEvent (env : HandlerEnv) (ledger : Ledger) : HandlerOutput :=
  match env.payload.action with
  | none => ⟨none, [], ledger⟩
  | some action =>
    if ¬ supportedActions.contains action then ⟨none, [], ledger⟩
    else if env.payload.pullRequest.isNone then ⟨none, [], ledger⟩
    else
      match extractPullRequestContext env.payload with
      | none => ⟨none, [], ledger⟩
      | some ctx =>
        match env.payload.installation with
        | none => ⟨none, [], ledger⟩
        | some installationId =>
          if installationId = 0 then ⟨none, [], ledger⟩
          else handlerMain env ledger ctx installationId

/-- `handlePullRequestEvent` (later variant) paired with the
non-validating extractor: the extractor never returns `null`, so the
missing-fields guard cannot fire; a `TypeError` thrown while probing
the payload escapes the handler before the `try` block (no effects),
but a context with `undefined` leaf fields proceeds. -/
def handlePullRequestEventNV (env : HandlerEnv) (ledger : Ledger) : HandlerOutput :=
  match env.payload.action with
  | none => ⟨none, [], ledger⟩
  | some action =>
    if ¬ supportedActions.contains action then ⟨none, [], ledger⟩
    else if env.payload.pullRequest.isNone then ⟨none, [], ledger⟩
    else
      match extractPullRequestContextNV env.payload with
      | .error _ => ⟨none, [], ledger⟩
      | .ok nv =>
        match env.payload.installation with
        | none => ⟨none, [], ledger⟩
        | some installationId =>
          if installationId = 0 then ⟨none, [], ledger⟩
          else handlerMain env ledger (ctxOfNV nv) installationId

/-- The per-name conclusion computed by `finalizeCheckRuns`:
`override?.[name] ?? conclusion`. -/
def finalizeConclusion (conclusion : Conclusion)
    (override : CheckName → Option Conclusion) (name : CheckName) : Conclusion :=
  (override name).getD conclusion

/-- The override passed by the earlier variant's `catch` block:
`finalizeCheckRuns("neutral", ..., { "CI/check": "failure" })`. -/
def earlierCatchOverride : CheckName → Option Conclusion
  | .check => some .failure
  | .autofix => none

/-- The override passed by the later variant's `catch` block:
`finalizeCheckRuns("failure", ...)` with no override. -/
def laterCatchOverride : CheckName → Option Conclusion :=
  fun _ => none

/-! ### Monad-inversion infrastructure and pipeline lemmas -/

theorem bind_def {α β : Type} (x : M α) (f : α → M β) : x >>= f = mbind x f := rfl

theorem pure_def {α : Type} (a : α) : (pure a : M α) = mret a := rfl

theorem mbind_ok {α β : Type} {x : M α} {f : α → M β} {st st₂ : RunSt} {b : β}
    (h : mbind x f st = (.ok b, st₂)) :
    ∃ a st₁, x st = (.ok a, st₁) ∧ f a st₁ = (.ok b, st₂) := by
  unfold mbind at h
  rcases hx : x st with ⟨out, st₁⟩
  rw [hx] at h
  cases out with
  | ok a => exact ⟨a, st₁, rfl, h⟩
  | error e => simp at h

def TraceExtends (st st' : RunSt) : Prop := ∃ tail, st'.trace = st.trace ++ tail

theorem traceExtends_refl (st : RunSt) : TraceExtends st st := ⟨[], by simp⟩

theorem traceExtends_trans {s t u : RunSt} (h₁ : TraceExtends s t)
    (h₂ : TraceExtends t u) : TraceExtends s u := by
  obtain ⟨a, ha⟩ := h₁
  obtain ⟨b, hb⟩ := h₂
  exact ⟨a ++ b, by rw [hb, ha, List.append_assoc]⟩

theorem mem_of_traceExtends {e : RunnerEff} {st st' : RunSt}
    (h : e ∈ st.trace) (hx : TraceExtends st st') : e ∈ st'.trace := by
  obtain ⟨tail, ht⟩ := hx
  rw [ht]
  exact List.mem_append_left _ h

theorem pushLog_eq (line : String) (st : RunSt) :
    pushLog line st = (.ok (), { st with logs := st.logs ++ [line] }) := rfl

theorem emitCmd_eq (name : String) (args : List String) (st : RunSt) :
    emitCmd name args st = (.ok (), { st with trace := st.trace ++ [.cmd name args] }) := rfl

theorem getLogs_eq (st : RunSt) : getLogs st = (.ok st.logs, st) := rfl

theorem execCommand_eq (name : String) (args : List String) (r : CommandResult) (st : RunSt) :
    execCommand name args r st = (.ok r, { st with trace := st.trace ++ [.cmd name args] }) := rfl

theorem execRequired_eq (name : String) (args : List String) (r : CommandResult) (st : RunSt) :
    execRequired name args r st =
      ((if r.code ≠ 0 then .error (requiredFailureMessage name args) else .ok r),
       { st with trace := st.trace ++ [RunnerEff.cmd name args] }) := by
  by_cases hc : r.code = 0 <;>
    simp [execRequired, bind_def, mbind, emitCmd, runRequiredCommandOfResult,
      pure_def, mret, mthrow, hc]

theorem execRequired_ok {name : String} {args : List String} {r : CommandResult}
    {st st' : RunSt} {v : CommandResult}
    (h : execRequired name args r st = (.ok v, st')) :
    v = r ∧ r.code = 0 ∧ st' = { st with trace := st.trace ++ [RunnerEff.cmd name args] } := by
  rw [execRequired_eq] at h
  by_cases hc : r.code ≠ 0
  · simp [hc] at h
  · simp only [hc, if_false, Prod.mk.injEq, Except.ok.injEq] at h
    push_neg at hc
    exact ⟨h.1.symm, hc, h.2.symm⟩

theorem execRequired_extends {name : String} {args : List String} {r : CommandResult}
    {st st' : RunSt} {v : CommandResult}
    (h : execRequired name args r st = (.ok v, st')) : TraceExtends st st' := by
  obtain ⟨-, -, e⟩ := execRequired_ok h
  rw [e]
  exact ⟨_, rfl⟩

theorem execCommand_ok {name : String} {args : List String} {r : CommandResult}
    {st st' : RunSt} {v : CommandResult}
    (h : execCommand name args r st = (.ok v, st')) :
    v = r ∧ st' = { st with trace := st.trace ++ [RunnerEff.cmd name args] } := by
  rw [execCommand_eq] at h
  injection h with h1 h2
  injection h1 with h1
  exact ⟨h1.symm, h2.symm⟩

theorem pushLog_ok {line : String} {st st' : RunSt} {u : Unit}
    (h : pushLog line st = (.ok u, st')) :
    st' = { st with logs := st.logs ++ [line] } := by
  rw [pushLog_eq] at h
  injection h with h1 h2
  exact h2.symm

theorem pushLog_extends {line : String} {st st' : RunSt} {u : Unit}
    (h : pushLog line st = (.ok u, st')) : TraceExtends st st' := by
  rw [pushLog_ok h]
  exact ⟨[], by simp⟩

theorem mret_ok {α : Type} {a v : α} {st st' : RunSt}
    (h : mret a st = (.ok v, st')) : v = a ∧ st' = st := by
  unfold mret at h
  injection h with h1 h2
  injection h1 with h1
  exact ⟨h1.symm, h2.symm⟩

theorem gitSetup_ok {env : ExecEnv} {input : AutofixInput} {st st' : RunSt} {u : Unit}
    (h : gitSetup env input st = (.ok u, st')) : TraceExtends st st' := by
  simp only [gitSetup, bind_def] at h
  obtain ⟨_, s1, h1, h⟩ := mbind_ok h
  obtain ⟨_, s2, h2, h⟩ := mbind_ok h
  obtain ⟨_, s3, h3, h⟩ := mbind_ok h
  obtain ⟨_, s4, h4, h⟩ := mbind_ok h
  obtain ⟨_, s5, h5, h⟩ := mbind_ok h
  exact traceExtends_trans (execRequired_extends h1)
    (traceExtends_trans (execRequired_extends h2)
      (traceExtends_trans (execRequired_extends h3)
        (traceExtends_trans (execRequired_extends h4)
          (traceExtends_trans (execRequired_extends h5) (pushLog_extends h)))))

theorem mthrow_not_ok {α : Type} {e : String} {st st' : RunSt} {v : α} :
    mthrow (α := α) e st ≠ (.ok v, st') := by
  unfold mthrow
  intro h
  simp at h

theorem ite_pushLog_extends {c : Prop} [Decidable c] {line : String} {st st' : RunSt} {u : Unit}
    (h : (if c then pushLog line else pure ()) st = (.ok u, st')) : TraceExtends st st' := by
  split at h
  · exact pushLog_extends h
  · rw [pure_def] at h
    obtain ⟨-, e⟩ := mret_ok h
    rw [e]
    exact traceExtends_refl st

theorem ensureRuff_ok {env : ExecEnv} {st st' : RunSt} {u : Unit}
    (h : ensureRuff env st = (.ok u, st')) : TraceExtends st st' := by
  simp only [ensureRuff, bind_def] at h
  obtain ⟨v, s1, h1, h⟩ := mbind_ok h
  obtain ⟨hv, e1⟩ := execCommand_ok h1
  subst hv
  split at h
  · exact traceExtends_trans (e1 ▸ ⟨_, rfl⟩) (pushLog_extends h)
  · split at h
    all_goals
      obtain ⟨_, s2, h2, h⟩ := mbind_ok h
      obtain ⟨_, s3, h3, h⟩ := mbind_ok h
      exact absurd h mthrow_not_ok

theorem ensureBlack_ok {env : ExecEnv} {st st' : RunSt} {u : Unit}
    (h : ensureBlack env st = (.ok u, st')) : TraceExtends st st' := by
  simp only [ensureBlack, bind_def] at h
  obtain ⟨v, s1, h1, h⟩ := mbind_ok h
  obtain ⟨hv, e1⟩ := execCommand_ok h1
  subst hv
  have hx1 : TraceExtends st s1 := e1 ▸ ⟨_, rfl⟩
  split at h
  · exact traceExtends_trans hx1 (pushLog_extends h)
  · obtain ⟨_, s2, h2, h⟩ := mbind_ok h
    obtain ⟨_, s3, h3, h⟩ := mbind_ok h
    rw [pure_def] at h
    obtain ⟨-, e4⟩ := mret_ok h
    subst e4
    exact traceExtends_trans hx1
      (traceExtends_trans (pushLog_extends h2) (execRequired_extends h3))

theorem runRuffFormatting_ok {env : ExecEnv} {enable : Bool} {st st' : RunSt}
    {v : FormatOutcome}
    (h : runRuffFormatting env enable st = (.ok v, st')) :
    v = ⟨hasHiddenFixes [env.ruffCheckFix.stdout, env.ruffCheckFix.stderr], enable⟩ ∧
    TraceExtends st st' ∧
    RunnerEff.cmd "ruff" (checkFixArgs enable) ∈ st'.trace := by
  simp only [runRuffFormatting, bind_def] at h
  obtain ⟨v1, s1, h1, h⟩ := mbind_ok h
  obtain ⟨hv1, e1⟩ := execCommand_ok h1
  subst hv1
  obtain ⟨_, s2, h2, h⟩ := mbind_ok h
  have hx2 : TraceExtends st s2 :=
    traceExtends_trans (e1 ▸ ⟨_, rfl⟩) (pushLog_extends h2)
  split at h
  · obtain ⟨_, s3, h3, h⟩ := mbind_ok h
    exact absurd h mthrow_not_ok
  · obtain ⟨v2, s3, h3, h⟩ := mbind_ok h
    obtain ⟨hv2, e3⟩ := execCommand_ok h3
    subst hv2
    obtain ⟨_, s4, h4, h⟩ := mbind_ok h
    have hmem : RunnerEff.cmd "ruff" (checkFixArgs enable) ∈ s3.trace := by
      rw [e3]
      simp
    have hx3 : TraceExtends st s3 := traceExtends_trans hx2 (e3 ▸ ⟨_, rfl⟩)
    have hx4 : TraceExtends s3 s4 := pushLog_extends h4
    split at h
    · obtain ⟨_, s5, h5, h⟩ := mbind_ok h
      have hx5 : TraceExtends s4 s5 := pushLog_extends h5
      rw [pure_def] at h
      obtain ⟨hv, e6⟩ := mret_ok h
      subst e6
      exact ⟨hv, traceExtends_trans hx3 (traceExtends_trans hx4 hx5),
        mem_of_traceExtends hmem (traceExtends_trans hx4 hx5)⟩
    · obtain ⟨_, s5, h5, h⟩ := mbind_ok h
      rw [pure_def] at h5
      obtain ⟨-, e5⟩ := mret_ok h5
      rw [pure_def] at h
      obtain ⟨hv, e6⟩ := mret_ok h
      subst e6
      subst e5
      exact ⟨hv, traceExtends_trans hx3 hx4, mem_of_traceExtends hmem hx4⟩

theorem runBlackIfConfigured_ok {env : ExecEnv} {st st' : RunSt} {u : Unit}
    (h : runBlackIfConfigured env st = (.ok u, st')) : TraceExtends st st' := by
  simp only [runBlackIfConfigured, bind_def] at h
  split at h
  · obtain ⟨_, s1, h1, h⟩ := mbind_ok h
    obtain ⟨_, s2, h2, h⟩ := mbind_ok h
    obtain ⟨v3, s3, h3, h⟩ := mbind_ok h
    obtain ⟨hv3, e3⟩ := execCommand_ok h3
    subst hv3
    obtain ⟨_, s4, h4, h⟩ := mbind_ok h
    exact traceExtends_trans (pushLog_extends h1)
      (traceExtends_trans (ensureBlack_ok h2)
        (traceExtends_trans (e3 ▸ ⟨_, rfl⟩)
          (traceExtends_trans (pushLog_extends h4) (ite_pushLog_extends h))))
  · rw [pure_def] at h
    obtain ⟨-, e⟩ := mret_ok h
    rw [e]
    exact traceExtends_refl st

theorem commitAndPush_ok {env : ExecEnv} {input : AutofixInput} {st st' : RunSt} {v : Bool}
    (h : commitAndPush env input st = (.ok v, st')) : TraceExtends st st' := by
  simp only [commitAndPush, bind_def] at h
  obtain ⟨v0, s0, h0, h⟩ := mbind_ok h
  obtain ⟨hv0, e0⟩ := execCommand_ok h0
  subst hv0
  have hx0 : TraceExtends st s0 := e0 ▸ ⟨_, rfl⟩
  split at h
  · obtain ⟨_, s1, h1, h⟩ := mbind_ok h
    obtain ⟨_, s2, h2, h⟩ := mbind_ok h
    obtain ⟨_, s3, h3, h⟩ := mbind_ok h
    obtain ⟨_, s4, h4, h⟩ := mbind_ok h
    rw [pure_def] at h
    obtain ⟨-, e5⟩ := mret_ok h
    subst e5
    exact traceExtends_trans hx0
      (traceExtends_trans (execRequired_extends h1)
        (traceExtends_trans (execRequired_extends h2)
          (traceExtends_trans (execRequired_extends h3) (pushLog_extends h4))))
  · rw [pure_def] at h
    obtain ⟨-, e⟩ := mret_ok h
    subst e
    exact hx0

theorem runRuffVerification_ok {env : ExecEnv} {st st' : RunSt} {v : VerifyOutcome}
    (h : runRuffVerification env st = (.ok v, st')) :
    v = ⟨(if env.ruffFormatCheck.code ≠ 0 ∨ env.ruffLintCheck.code ≠ 0 then false else true),
         hasHiddenFixes [env.ruffLintCheck.stdout, env.ruffLintCheck.stderr]⟩ ∧
    TraceExtends st st' := by
  simp only [runRuffVerification, bind_def] at h
  obtain ⟨v1, s1, h1, h⟩ := mbind_ok h
  obtain ⟨hv1, e1⟩ := execCommand_ok h1
  subst hv1
  obtain ⟨_, s2, h2, h⟩ := mbind_ok h
  obtain ⟨v3, s3, h3, h⟩ := mbind_ok h
  obtain ⟨hv3, e3⟩ := execCommand_ok h3
  subst hv3
  obtain ⟨_, s4, h4, h⟩ := mbind_ok h
  have hx4 : TraceExtends st s4 :=
    traceExtends_trans (e1 ▸ ⟨_, rfl⟩)
      (traceExtends_trans (pushLog_extends h2)
        (traceExtends_trans (e3 ▸ ⟨_, rfl⟩) (pushLog_extends h4)))
  split at h
  · rename_i hcond
    obtain ⟨_, s5, h5, h⟩ := mbind_ok h
    obtain ⟨_, s6, h6, h⟩ := mbind_ok h
    rw [pure_def] at h
    obtain ⟨hv, e7⟩ := mret_ok h
    subst e7
    refine ⟨by rw [hv, if_pos hcond], ?_⟩
    exact traceExtends_trans hx4
      (traceExtends_trans (pushLog_extends h5) (pushLog_extends h6))
  · rename_i hcond
    rw [pure_def] at h
    obtain ⟨hv, e5⟩ := mret_ok h
    subst e5
    exact ⟨by rw [hv, if_neg hcond], hx4⟩

theorem getLogs_ok {st st' : RunSt} {v : List String}
    (h : getLogs st = (.ok v, st')) : v = st.logs ∧ st' = st := by
  rw [getLogs_eq] at h
  injection h with h1 h2
  injection h1 with h1
  exact ⟨h1.symm, h2.symm⟩

theorem runAutofixBody_ok {input : AutofixInput} {env : ExecEnv} {st st' : RunSt}
    {res : AutofixResult}
    (h : runAutofixBody input env st = (.ok res, st')) :
    res.checkConclusion =
      (if env.ruffFormatCheck.code = 0 ∧ env.ruffLintCheck.code = 0 then
        Conclusion.success else Conclusion.failure) ∧
    res.autofixConclusion = .success ∧
    res.unsafeFixesUsed = input.enableUnsafeFixes ∧
    RunnerEff.cmd "ruff" (checkFixArgs input.enableUnsafeFixes) ∈ st'.trace := by
  simp only [runAutofixBody, bind_def] at h
  obtain ⟨_, s1, h1, h⟩ := mbind_ok h
  obtain ⟨_, s2, h2, h⟩ := mbind_ok h
  obtain ⟨vfmt, s3, h3, h⟩ := mbind_ok h
  obtain ⟨hfmt, hx3, hmem3⟩ := runRuffFormatting_ok h3
  subst hfmt
  split at h
  all_goals
    obtain ⟨_, s4, h4, h⟩ := mbind_ok h
    obtain ⟨_, s5, h5, h⟩ := mbind_ok h
    obtain ⟨vapplied, s6, h6, h⟩ := mbind_ok h
    obtain ⟨vver, s7, h7, h⟩ := mbind_ok h
    obtain ⟨hver, hx7⟩ := runRuffVerification_ok h7
    subst hver
    obtain ⟨vlogs, s8, h8, h⟩ := mbind_ok h
    obtain ⟨hlogs, e8⟩ := getLogs_ok h8
    simp only [pure_def] at h
    obtain ⟨hres, e9⟩ := mret_ok h
    have hst : st' = s7 := e9.trans e8
    have hx4 : TraceExtends s3 s4 := by
      first
      | exact pushLog_extends h4
      | rw [pure_def] at h4
        obtain ⟨-, e4⟩ := mret_ok h4
        rw [e4]
        exact traceExtends_refl s3
    have hmem : RunnerEff.cmd "ruff" (checkFixArgs input.enableUnsafeFixes) ∈ s7.trace :=
      mem_of_traceExtends hmem3
        (traceExtends_trans hx4
          (traceExtends_trans (runBlackIfConfigured_ok h5)
            (traceExtends_trans (commitAndPush_ok h6) hx7)))
    refine ⟨?_, ?_, ?_, by rw [hst]; exact hmem⟩
    · rw [hres]
      by_cases hfc : env.ruffFormatCheck.code = 0 <;>
        by_cases hlc : env.ruffLintCheck.code = 0 <;>
        simp [hfc, hlc]
    · rw [hres]
    · rw [hres]

theorem runAutofix_ok_fields {input : AutofixInput} {env : ExecEnv} {res : AutofixResult}
    (h : (runAutofix input env).outcome = .ok res) :
    res.checkConclusion =
      (if env.ruffFormatCheck.code = 0 ∧ env.ruffLintCheck.code = 0 then
        Conclusion.success else Conclusion.failure) ∧
    res.autofixConclusion = .success ∧
    res.unsafeFixesUsed = input.enableUnsafeFixes ∧
    RunnerEff.cmd "ruff" (checkFixArgs input.enableUnsafeFixes) ∈ (runAutofix input env).trace := by
  rcases hb : runM (runAutofixBody input env) ⟨[], []⟩ with ⟨out, stf⟩
  cases out with
  | error msg =>
      exfalso
      simp only [runAutofix, hb] at h
      exact Except.noConfusion h
  | ok r =>
      have hbody : runAutofixBody input env ⟨[], []⟩ = (.ok r, stf) := hb
      obtain ⟨f1, f2, f3, f4⟩ := runAutofixBody_ok hbody
      have hr : r = res := by
        simp only [runAutofix, hb, Except.ok.injEq] at h
        exact h
      subst hr
      refine ⟨f1, f2, f3, ?_⟩
      have : (runAutofix input env).trace = RunnerEff.mkTempDir :: stf.trace ++ [RunnerEff.rmTempDir] := by
        simp only [runAutofix, hb]
      rw [this]
      exact List.mem_cons_of_mem _ (List.mem_append_left _ f4)

theorem tempDirExistsAfter_append_rm (trace : List RunnerEff) :
    tempDirExistsAfter (trace ++ [RunnerEff.rmTempDir]) = false := by
  simp [tempDirExistsAfter, List.foldl_append, tempDirStep]

theorem getLast?_append_singleton {α : Type} (l : List α) (a : α) :
    (l ++ [a]).getLast? = some a := by
  induction l with
  | nil => rfl
  | cons x xs ih =>
      rw [List.cons_append, List.getLast?_cons, ih]
      cases xs <;> simp_all

/-- C5: whenever the ephemeral workspace was created, it is removed
again on every exit path of `runAutofix`, success or failure. -/
theorem C5_ephemeral_workspace_always_removed (input : AutofixInput) (env : ExecEnv) :
    (runAutofix input env).trace.head? = some RunnerEff.mkTempDir ∧
    (runAutofix input env).trace.getLast? = some RunnerEff.rmTempDir ∧
    tempDirExistsAfter (runAutofix input env).trace = false := by
  rcases hb : runM (runAutofixBody input env) ⟨[], []⟩ with ⟨out, stf⟩
  have htrace : (runAutofix input env).trace =
      (RunnerEff.mkTempDir :: stf.trace) ++ [RunnerEff.rmTempDir] := by
    cases out <;> simp only [runAutofix, hb]
  rw [htrace]
  exact ⟨by simp, getLast?_append_singleton _ _, tempDirExistsAfter_append_rm _⟩

/-! ### Shared concrete fixtures for witnesses -/

/-- A successful external command with empty output. -/
def cmdOk : CommandResult := ⟨0, "", ""⟩

/-- A pipeline environment in which every external call succeeds and
the working tree stays clean. -/
def execEnvAllOk : ExecEnv :=
  { gitClone := cmdOk, gitFetch := cmdOk, gitCheckout := cmdOk,
    gitConfigName := cmdOk, gitConfigEmail := cmdOk,
    ruffVersion := ⟨0, "ruff 0.5.7", ""⟩, ruffFormat := cmdOk, ruffCheckFix := cmdOk,
    pyproject := none, setupCfg := none, requirements := none,
    blackVersion := cmdOk, pipInstallBlack := cmdOk, blackRun := cmdOk,
    gitStatus := cmdOk, gitAdd := cmdOk, gitCommit := cmdOk, gitPush := cmdOk,
    ruffFormatCheck := cmdOk, ruffLintCheck := cmdOk }

/-- A concrete pipeline input with unsafe fixes off. -/
def sampleInput : AutofixInput := ⟨"tok", "octo/demo", "main", "abc123", commitMessageText, false, none⟩

/-- A settings issue enabling unsafe fixes with a full attribution and
one unknown key. -/
def settingsIssueW : SettingsIssue :=
  { number := 3,
    body := some (.obj [("enableUnsafeFixes", .bool true),
      ("unsafeFixesEnabledBy", .obj [("login", .str "alice"), ("id", .num 7)]),
      ("unsafeFixesEnabledAt", .str "2024-05-01T00:00:00Z"),
      ("theme", .str "dark")]),
    user := some ⟨"bob", 2⟩, updatedAt := some "2024-05-02T00:00:00Z",
    createdAt := some "2024-04-01T00:00:00Z" }

/-- A successful issue listing that finds `settingsIssueW`. -/
def settingsFetchW : SettingsFetch := ⟨true, some settingsIssueW⟩

/-- A permission lookup that reports every user as an admin. -/
def adminLookupW : String → Except String String := fun _ => .ok "admin"

/-- A permission lookup that always throws. -/
def throwingLookupW : String → Except String String := fun _ => .error "boom"

/-- A concrete validated pull-request context. -/
def ctxW : PullRequestContext := ⟨"octo", "demo", 5, "abc123", "main", "octo/demo", "https://pr.example/5"⟩

/-! ### The pipeline input built by the orchestrator -/

/-- The `AutofixInput` the orchestrator passes to `runAutofix` after
resolving the unsafe-fixes setting (later variant, lines building the
`runAutofix` call in `handlePullRequestEvent`). -/
def pipelineInput (plan : InstallationPlan) (f : SettingsFetch)
    (lookup : String → Except String String) (token : String)
    (ctx : PullRequestContext) : AutofixInput :=
  { token := token, headRepoFullName := ctx.headRepoFullName, headRef := ctx.headRef,
    headSha := ctx.headSha, commitMessage := commitMessageText,
    enableUnsafeFixes := decideUnsafeFixes plan (resolveUnsafeFixesSetting f lookup),
    unsafeFixesSkipReason := (resolveUnsafeFixesSetting f lookup).skipReason }

/-- The spec-side reading of the third conjunct of the unsafe-fixes
gate: the settings carry an attributed enabler (with a non-blank
login, which is what the code's `!enabledBy?.login` guard admits) and
the live permission lookup reports that enabler as `admin`. -/
def AttributedEnablerVerifiedAdmin (settings : RepoSettings)
    (permissionLookup : String → Except String String) : Prop :=
  ∃ enabledBy, settings.unsafeFixesEnabledBy = some enabledBy ∧
    enabledBy.login ≠ "" ∧ permissionLookup enabledBy.login = .ok "admin"

/-- The resolver plus final gate compute exactly the three-way
conjunction of the spec. -/
theorem decideUnsafeFixes_resolve_iff (plan : InstallationPlan) (f : SettingsFetch)
    (lookup : String → Except String String) :
    decideUnsafeFixes plan (resolveUnsafeFixesSetting f lookup) = true ↔
      (plan = .pro ∧ (getRepoSettingsFromIssue f).1.enableUnsafeFixes = true ∧
       AttributedEnablerVerifiedAdmin (getRepoSettingsFromIssue f).1 lookup) := by
  unfold decideUnsafeFixes resolveUnsafeFixesSetting AttributedEnablerVerifiedAdmin verifyRepoAdmin
  by_cases hflag : (getRepoSettingsFromIssue f).1.enableUnsafeFixes
  · rcases hby : (getRepoSettingsFromIssue f).1.unsafeFixesEnabledBy with _ | e
    · simp [hflag, hby]
    · by_cases he : e.login = ""
      · simp [hflag, hby, he]
      · rcases hlk : lookup e.login with msg | perm
        · simp [hflag, hby, he, hlk]
        · by_cases hperm : perm = "admin"
          · subst hperm
            cases plan <;> simp [hflag, hby, he, hlk]
          · cases plan <;> simp [hflag, hby, he, hlk, hperm]
  · simp [hflag]

/-- Membership of the unsafe flag in the lint-fix arguments. -/
theorem unsafe_flag_mem_checkFixArgs (b : Bool) :
    "--unsafe-fixes" ∈ checkFixArgs b ↔ b = true := by
  cases b <;> simp [checkFixArgs]

/-- C1: on every event that reaches the pipeline and completes it,
`unsafeFixesUsed` is true iff plan is pro AND the stored
`enableUnsafeFixes` flag is set AND the attributed enabler was
verified as a repository admin; and the `--unsafe-fixes` flag is
passed to the lint-fix step exactly when `unsafeFixesUsed` is true. -/
theorem C1_unsafe_fixes_iff_gate (plan : InstallationPlan) (f : SettingsFetch)
    (lookup : String → Except String String) (token : String)
    (ctx : PullRequestContext) (env : ExecEnv) (res : AutofixResult)
    (h : (runAutofix (pipelineInput plan f lookup token ctx) env).outcome = .ok res) :
    (res.unsafeFixesUsed = true ↔
      (plan = .pro ∧ (getRepoSettingsFromIssue f).1.enableUnsafeFixes = true ∧
        AttributedEnablerVerifiedAdmin (getRepoSettingsFromIssue f).1 lookup)) ∧
    ("--unsafe-fixes" ∈ checkFixArgs res.unsafeFixesUsed ↔ res.unsafeFixesUsed = true) ∧
    RunnerEff.cmd "ruff" (checkFixArgs res.unsafeFixesUsed) ∈
      (runAutofix (pipelineInput plan f lookup token ctx) env).trace := by
  obtain ⟨-, -, f3, f4⟩ := runAutofix_ok_fields h
  have hused : res.unsafeFixesUsed = decideUnsafeFixes plan (resolveUnsafeFixesSetting f lookup) := f3
  refine ⟨?_, unsafe_flag_mem_checkFixArgs _, ?_⟩
  · rw [hused]
    exact decideUnsafeFixes_resolve_iff plan f lookup
  · rw [hused]
    exact f4

/-- Witness for C1 at a concrete pro-plan event with a verified
attributed enabler: unsafe fixes are used. -/
theorem C1_witness :
    ((⟨.success, .success, "No formatting changes needed. Unsafe fixes enabled (Pro).",
        "Checked out main at abc123.\nruff detected: ruff 0.5.7\nUnsafe fixes enabled (Pro).",
        false, true, false⟩ : AutofixResult).unsafeFixesUsed = true ↔
      (InstallationPlan.pro = .pro ∧
        (getRepoSettingsFromIssue settingsFetchW).1.enableUnsafeFixes = true ∧
        AttributedEnablerVerifiedAdmin (getRepoSettingsFromIssue settingsFetchW).1 adminLookupW)) ∧
    ("--unsafe-fixes" ∈ checkFixArgs (⟨.success, .success,
        "No formatting changes needed. Unsafe fixes enabled (Pro).",
        "Checked out main at abc123.\nruff detected: ruff 0.5.7\nUnsafe fixes enabled (Pro).",
        false, true, false⟩ : AutofixResult).unsafeFixesUsed ↔
      (⟨.success, .success, "No formatting changes needed. Unsafe fixes enabled (Pro).",
        "Checked out main at abc123.\nruff detected: ruff 0.5.7\nUnsafe fixes enabled (Pro).",
        false, true, false⟩ : AutofixResult).unsafeFixesUsed = true) ∧
    RunnerEff.cmd "ruff" (checkFixArgs (⟨.success, .success,
        "No formatting changes needed. Unsafe fixes enabled (Pro).",
        "Checked out main at abc123.\nruff detected: ruff 0.5.7\nUnsafe fixes enabled (Pro).",
        false, true, false⟩ : AutofixResult).unsafeFixesUsed) ∈
      (runAutofix (pipelineInput .pro settingsFetchW adminLookupW "tok" ctxW) execEnvAllOk).trace :=
  C1_unsafe_fixes_iff_gate .pro settingsFetchW adminLookupW "tok" ctxW execEnvAllOk _ rfl

/-- C4: if the live admin-permission lookup for the attributed enabler
throws, the resolver fails closed: `adminVerified` is false with the
fixed skip reason, so for every plan the final gate is off. -/
theorem C4_admin_lookup_fails_closed (f : SettingsFetch)
    (lookup : String → Except String String) (e : UnsafeFixesEnabledBy) (msg : String)
    (hFlag : (getRepoSettingsFromIssue f).1.enableUnsafeFixes = true)
    (hBy : (getRepoSettingsFromIssue f).1.unsafeFixesEnabledBy = some e)
    (hThrow : lookup e.login = .error msg) :
    (resolveUnsafeFixesSetting f lookup).adminVerified = false ∧
    (resolveUnsafeFixesSetting f lookup).skipReason = some unsafeFixesAdminSkipMessage ∧
    ∀ plan, decideUnsafeFixes plan (resolveUnsafeFixesSetting f lookup) = false := by
  simp only [resolveUnsafeFixesSetting, verifyRepoAdmin, hFlag, hBy]
  by_cases he : e.login = ""
  · simp [he, decideUnsafeFixes]
  · simp [he, hThrow, decideUnsafeFixes]

/-- Witness for C4: a concrete throwing lookup over the attributed
settings issue leaves unsafe fixes off on every plan. -/
theorem C4_witness :
    (resolveUnsafeFixesSetting settingsFetchW throwingLookupW).adminVerified = false ∧
    (resolveUnsafeFixesSetting settingsFetchW throwingLookupW).skipReason =
      some unsafeFixesAdminSkipMessage ∧
    ∀ plan, decideUnsafeFixes plan (resolveUnsafeFixesSetting settingsFetchW throwingLookupW) = false :=
  C4_admin_lookup_fails_closed settingsFetchW throwingLookupW ⟨"alice", 7⟩ "boom"
    (by decide) (by decide) rfl

/-- C7: when `runAutofix` completes, `checkConclusion` is `success`
iff both re-verification checks exited 0 (`failure` otherwise, never
`neutral`), and `autofixConclusion` is always `success`. -/
theorem C7_check_conclusion_from_verification (input : AutofixInput) (env : ExecEnv)
    (res : AutofixResult) (h : (runAutofix input env).outcome = .ok res) :
    (res.checkConclusion = .success ↔
      (env.ruffFormatCheck.code = 0 ∧ env.ruffLintCheck.code = 0)) ∧
    (res.checkConclusion = .success ∨ res.checkConclusion = .failure) ∧
    res.autofixConclusion = .success := by
  obtain ⟨f1, f2, -, -⟩ := runAutofix_ok_fields h
  by_cases hc : env.ruffFormatCheck.code = 0 ∧ env.ruffLintCheck.code = 0
  · rw [if_pos hc] at f1
    exact ⟨by simp [f1, hc], Or.inl f1, f2⟩
  · rw [if_neg hc] at f1
    refine ⟨by rw [f1]; simp [hc], Or.inr f1, f2⟩

/-- Witness for C7 at a fully succeeding environment. -/
theorem C7_witness :
    (((⟨.success, .success, "No formatting changes needed.",
        "Checked out main at abc123.\nruff detected: ruff 0.5.7",
        false, false, false⟩ : AutofixResult).checkConclusion = .success ↔
      (execEnvAllOk.ruffFormatCheck.code = 0 ∧ execEnvAllOk.ruffLintCheck.code = 0)) ∧
    ((⟨.success, .success, "No formatting changes needed.",
        "Checked out main at abc123.\nruff detected: ruff 0.5.7",
        false, false, false⟩ : AutofixResult).checkConclusion = .success ∨
      (⟨.success, .success, "No formatting changes needed.",
        "Checked out main at abc123.\nruff detected: ruff 0.5.7",
        false, false, false⟩ : AutofixResult).checkConclusion = .failure) ∧
    (⟨.success, .success, "No formatting changes needed.",
        "Checked out main at abc123.\nruff detected: ruff 0.5.7",
        false, false, false⟩ : AutofixResult).autofixConclusion = .success) :=
  C7_check_conclusion_from_verification sampleInput execEnvAllOk _ rfl

/-- C10: when the child process closes, `runCommand` resolves with the
captured output, a `null` exit code (signal-killed child) is reported
as exit code `0`, and `runRequiredCommand` therefore treats it as a
success — it throws exactly when the reported code is non-zero. -/
theorem C10_null_close_code_is_success (command : String) (args : List String)
    (ev : ChildClose) :
    (runRequiredCommand command args ev = .ok (runCommand ev) ↔ (runCommand ev).code = 0) ∧
    (ev.code = none →
      (runCommand ev).code = 0 ∧
      runRequiredCommand command args ev = .ok ⟨0, ev.stdout, ev.stderr⟩) := by
  constructor
  · unfold runRequiredCommand runRequiredCommandOfResult
    by_cases hc : (runCommand ev).code = 0 <;> simp [hc]
  · intro hnone
    unfold runRequiredCommand runRequiredCommandOfResult runCommand
    simp [hnone]

/-- Witness for C10: a signal-killed `git push` is reported as exit
code 0 and `runRequiredCommand` succeeds on it. -/
theorem C10_witness :
    (runCommand ⟨none, "sig-out", "sig-err"⟩).code = 0 ∧
    runRequiredCommand "git" ["push"] ⟨none, "sig-out", "sig-err"⟩ =
      .ok ⟨0, "sig-out", "sig-err"⟩ :=
  (C10_null_close_code_is_success "git" ["push"] ⟨none, "sig-out", "sig-err"⟩).2 rfl

/-- Setting a ledger key makes it the value subsequently read. -/
theorem ledgerGet_set (ledger : Ledger) (key sha : String) :
    ledgerGet (ledgerSet ledger key sha) key = some sha := by
  induction ledger with
  | nil => simp [ledgerGet, ledgerSet]
  | cons head rest ih =>
      rcases head with ⟨k, v⟩
      by_cases hk : k = key <;> simp [ledgerGet, ledgerSet, hk, ih]

/-- C8 counterexample: the ledger remembers only the last commented
sha per pull request, so after a successful comment for sha `shaA`
and then one for sha `shaB` on the same pull request, a later attempt
for `shaA` posts again — two comments for the pair (PR, `shaA`) in
one process instance, and the later attempt is not a no-op. -/
theorem C8_counterexample :
    (safePostPullRequestComment [] "octo" "demo" 5 "shaA" true).1 = true ∧
    (safePostPullRequestComment
      (safePostPullRequestComment [] "octo" "demo" 5 "shaA" true).2
      "octo" "demo" 5 "shaB" true).1 = true ∧
    (safePostPullRequestComment
      (safePostPullRequestComment
        (safePostPullRequestComment [] "octo" "demo" 5 "shaA" true).2
        "octo" "demo" 5 "shaB" true).2
      "octo" "demo" 5 "shaA" true).1 = true := by decide

/-- C8 amended: the dedup guard is keyed on the last commented sha
only — an attempt is a no-op whenever the ledger's last commented sha
for the pull key equals the attempt's head sha, and in particular a
repeated invocation with the same head sha immediately after a
successful comment posts nothing; the guarantee resets when a comment
for a different head sha succeeds for the same pull request in
between. -/
theorem C8_amended_dedup_by_last_sha :
    (∀ (ledger : Ledger) (owner repo : String) (pullNumber : Nat) (headSha : String)
        (postSucceeds : Bool),
      ledgerGet ledger (getPullKey owner repo pullNumber) = some headSha →
      safePostPullRequestComment ledger owner repo pullNumber headSha postSucceeds =
        (false, ledger)) ∧
    (∀ (ledger : Ledger) (owner repo : String) (pullNumber : Nat) (headSha : String)
        (retryPostSucceeds : Bool),
      (safePostPullRequestComment ledger owner repo pullNumber headSha true).1 = true →
      safePostPullRequestComment
          (safePostPullRequestComment ledger owner repo pullNumber headSha true).2
          owner repo pullNumber headSha retryPostSucceeds =
        (false, (safePostPullRequestComment ledger owner repo pullNumber headSha true).2)) := by
  constructor
  · intro ledger owner repo pullNumber headSha postSucceeds hLast
    unfold safePostPullRequestComment
    simp [hLast]
  · intro ledger owner repo pullNumber headSha retryPostSucceeds hPosted
    unfold safePostPullRequestComment at hPosted ⊢
    by_cases hLast : ledgerGet ledger (getPullKey owner repo pullNumber) = some headSha
    · simp [hLast] at hPosted
    · simp only [hLast, if_false, if_neg hLast] at hPosted ⊢
      split at hPosted
      · simp_all [ledgerGet_set]
      · simp at hPosted

/-- Witness for C8's amended dedup rule at a concrete ledger and a
concrete repeated invocation. -/
theorem C8_witness :
    (safePostPullRequestComment [("octo/demo#5", "shaA")] "octo" "demo" 5 "shaA" true =
      (false, [("octo/demo#5", "shaA")])) ∧
    (safePostPullRequestComment
        (safePostPullRequestComment [] "octo" "demo" 5 "shaC" true).2
        "octo" "demo" 5 "shaC" true =
      (false, (safePostPullRequestComment [] "octo" "demo" 5 "shaC" true).2)) :=
  ⟨C8_amended_dedup_by_last_sha.1 [("octo/demo#5", "shaA")] "octo" "demo" 5 "shaA" true (by decide),
   C8_amended_dedup_by_last_sha.2 [] "octo" "demo" 5 "shaC" true (by decide)⟩

/-- Looking up the key just set in a JSON object. -/
theorem lookupField_setField_same (l : List (String × JVal)) (key : String) (v : JVal) :
    lookupField (setField l key v) key = some v := by
  induction l with
  | nil => simp [lookupField, setField]
  | cons head rest ih =>
      rcases head with ⟨k, w⟩
      by_cases hk : k = key <;> simp [lookupField, setField, hk, ih]

/-- Setting one key leaves every other key's value unchanged. -/
theorem lookupField_setField_other (l : List (String × JVal)) (key other : String)
    (v : JVal) (h : other ≠ key) :
    lookupField (setField l key v) other = lookupField l other := by
  have hks : ¬ key = other := fun hx => h hx.symm
  induction l with
  | nil => simp [lookupField, setField, hks]
  | cons head rest ih =>
      rcases head with ⟨k, w⟩
      by_cases hk : k = key
      · subst hk
        simp [lookupField, setField, hks]
      · by_cases ho : k = other <;> simp [lookupField, setField, hk, ho, ih, hks, h]

/-- C9: whenever the Settings Store Adapter rewrites the settings
issue body, the parsed settings had unsafe fixes enabled with a
missing attribution field; the written object preserves every unknown
key of the parsed body and writes the `enableUnsafeFixes` flag back
with exactly the value that was read. -/
theorem C9_rewrite_only_backfills_attribution (f : SettingsFetch) (s : RepoSettings)
    (body : List (String × JVal)) (issue : SettingsIssue) (ps : RepoSettings)
    (raw : List (String × JVal))
    (hIssue : f.issue = some issue)
    (hParse : parseSettingsIssueBody issue.body = ⟨ps, some raw⟩)
    (hRun : getRepoSettingsFromIssue f = (s, some body)) :
    ps.enableUnsafeFixes = true ∧
    (ps.unsafeFixesEnabledBy = none ∨ ps.unsafeFixesEnabledAt = none) ∧
    s.enableUnsafeFixes = ps.enableUnsafeFixes ∧
    lookupField body "enableUnsafeFixes" = some (.bool ps.enableUnsafeFixes) ∧
    (∀ k, k ≠ "enableUnsafeFixes" → k ≠ "unsafeFixesEnabledBy" →
      k ≠ "unsafeFixesEnabledAt" → lookupField body k = lookupField raw k) := by
  unfold getRepoSettingsFromIssue at hRun
  by_cases hl : f.listOk
  · rw [hIssue] at hRun
    simp only [hl, not_true, if_neg, ite_false, hParse] at hRun
    by_cases hflag : ps.enableUnsafeFixes = true
    · rw [if_pos hflag] at hRun
      by_cases hnu : (ps.unsafeFixesEnabledBy.isNone || ps.unsafeFixesEnabledAt.isNone) = true
      · rw [hnu] at hRun
        rcases heb : ps.unsafeFixesEnabledBy.orElse fun _ => issue.user with _ | b
        · rw [heb] at hRun
          simp at hRun
        · rw [heb] at hRun
          rcases hea : ps.unsafeFixesEnabledAt.orElse
              fun _ => issue.updatedAt.orElse fun _ => issue.createdAt with _ | a
          · rw [hea] at hRun
            simp at hRun
          · rw [hea] at hRun
            simp only [Prod.mk.injEq, Option.some.injEq] at hRun
            obtain ⟨hs, hbody⟩ := hRun
            have hmiss : ps.unsafeFixesEnabledBy = none ∨ ps.unsafeFixesEnabledAt = none := by
              rcases Bool.or_eq_true_iff.mp hnu with hx | hx
              · exact Or.inl (Option.isNone_iff_eq_none.mp hx)
              · exact Or.inr (Option.isNone_iff_eq_none.mp hx)
            refine ⟨hflag, hmiss, by rw [← hs], ?_, ?_⟩
            · rw [← hbody]
              unfold serializeSettingsBody
              rw [lookupField_setField_other _ _ _ _ (by decide),
                lookupField_setField_other _ _ _ _ (by decide),
                lookupField_setField_same]
            · intro k hk1 hk2 hk3
              rw [← hbody]
              unfold serializeSettingsBody
              rw [lookupField_setField_other _ _ _ _ hk3,
                lookupField_setField_other _ _ _ _ hk2,
                lookupField_setField_other _ _ _ _ hk1]
      · rw [Bool.not_eq_true] at hnu
        rw [hnu] at hRun
        simp at hRun
    · rw [if_neg hflag] at hRun
      simp at hRun
  · simp [hl] at hRun

/-- A settings issue enabling unsafe fixes with no attribution (the
backfill case), carrying one unknown key. -/
def settingsIssueBackfillW : SettingsIssue :=
  { number := 4,
    body := some (.obj [("enableUnsafeFixes", .bool true), ("theme", .str "dark")]),
    user := some ⟨"carol", 11⟩,
    updatedAt := some "2024-06-01T00:00:00Z",
    createdAt := some "2024-05-01T00:00:00Z" }

/-- A successful issue listing that finds `settingsIssueBackfillW`. -/
def settingsFetchBackfillW : SettingsFetch := ⟨true, some settingsIssueBackfillW⟩

/-- The raw parsed fields of `settingsIssueBackfillW`. -/
def settingsBackfillRawW : List (String × JVal) :=
  [("enableUnsafeFixes", .bool true), ("theme", .str "dark")]

/-- The body the adapter writes back for `settingsIssueBackfillW`. -/
def settingsBackfillBodyW : List (String × JVal) :=
  serializeSettingsBody settingsBackfillRawW
    ⟨true, some ⟨"carol", 11⟩, some "2024-06-01T00:00:00Z"⟩

/-- Witness for C9 at the concrete backfill rewrite: the flag is
written back as read and the unknown key `theme` is preserved. -/
theorem C9_witness :
    ((⟨true, none, none⟩ : RepoSettings).enableUnsafeFixes = true) ∧
    ((⟨true, none, none⟩ : RepoSettings).unsafeFixesEnabledBy = none ∨
      (⟨true, none, none⟩ : RepoSettings).unsafeFixesEnabledAt = none) ∧
    ((⟨true, some ⟨"carol", 11⟩, some "2024-06-01T00:00:00Z"⟩ : RepoSettings).enableUnsafeFixes =
      (⟨true, none, none⟩ : RepoSettings).enableUnsafeFixes) ∧
    lookupField settingsBackfillBodyW "enableUnsafeFixes" =
      some (.bool (⟨true, none, none⟩ : RepoSettings).enableUnsafeFixes) ∧
    lookupField settingsBackfillBodyW "theme" = lookupField settingsBackfillRawW "theme" :=
  let h := C9_rewrite_only_backfills_attribution settingsFetchBackfillW
    ⟨true, some ⟨"carol", 11⟩, some "2024-06-01T00:00:00Z"⟩ settingsBackfillBodyW
    settingsIssueBackfillW ⟨true, none, none⟩ settingsBackfillRawW rfl rfl rfl
  ⟨h.1, h.2.1, h.2.2.1, h.2.2.2.1, h.2.2.2.2 "theme" (by decide) (by decide) (by decide)⟩

/-- The (name, conclusion) pairs of the check-run update calls in an
effect trace. -/
def effectsUpdateConclusions (effects : List Effect) : List (CheckName × Conclusion) :=
  effects.filterMap fun e =>
    match e with
    | .checkUpdate name conclusion _ _ => some (name, conclusion)
    | _ => none

/-- A fully populated inbound payload. -/
def payloadFullW : PullPayload :=
  { action := some "opened",
    repository := some ⟨some ⟨some "octo"⟩, some "demo"⟩,
    pullRequest := some ⟨some 5,
      some ⟨some "abc123", some "main", some ⟨some "octo/demo"⟩⟩,
      some "https://pr.example/5"⟩,
    installation := some 42 }

/-- The same payload with the HTML URL absent. -/
def payloadMissingUrlW : PullPayload :=
  { action := some "opened",
    repository := some ⟨some ⟨some "octo"⟩, some "demo"⟩,
    pullRequest := some ⟨some 5,
      some ⟨some "abc123", some "main", some ⟨some "octo/demo"⟩⟩,
      none⟩,
    installation := some 42 }

/-- A pipeline environment whose clone step fails. -/
def execEnvCloneFailsW : ExecEnv :=
  { execEnvAllOk with gitClone := ⟨128, "", "fatal: repository not found"⟩ }

/-- A handler environment leading to a caught pipeline failure. -/
def handlerEnvErrW : HandlerEnv :=
  { payload := payloadFullW, planOverridePro := false, proInstallationIds := [],
    tokenResult := .ok "tok", createCheck := fun _ => some 9,
    filesResult := .ok ["app.py"], settingsFetch := ⟨true, none⟩,
    permissionLookup := fun _ => .error "unused", exec := execEnvCloneFailsW,
    postCommentOk := true, docsUrl := none }

/-- A handler environment for a pull request with no Python changes. -/
def handlerEnvSkipW : HandlerEnv :=
  { handlerEnvErrW with filesResult := .ok ["README.md"], exec := execEnvAllOk }

/-- A handler environment over the payload missing its HTML URL. -/
def handlerEnvNVW : HandlerEnv :=
  { handlerEnvSkipW with payload := payloadMissingUrlW }

/-- C3: an event whose changed files contain no `.py` file finalizes
both check runs with conclusion success and the exact summary text
"Skipped: no Python changes.", and never invokes the pipeline. -/
theorem C3_skip_no_python_changes (env : HandlerEnv) (ledger : Ledger)
    (ctx : PullRequestContext) (installationId : Nat) (token : String)
    (id1 id2 : Nat) (files : List String)
    (hTok : env.tokenResult = .ok token)
    (hCreate1 : env.createCheck .check = some id1)
    (hCreate2 : env.createCheck .autofix = some id2)
    (hFiles : env.filesResult = .ok files)
    (hNoPy : containsPythonChanges files = false) :
    handlerMain env ledger ctx installationId =
      ⟨some "skipped_no_python",
        [.checkCreate .check, .checkCreate .autofix,
         .checkUpdate .check .success skippedSummary skippedSummary,
         .checkUpdate .autofix .success skippedSummary skippedSummary],
        ledger⟩ ∧
    (∀ b, Effect.pipelineRun b ∉ (handlerMain env ledger ctx installationId).effects) := by
  have hmain : handlerMain env ledger ctx installationId =
      ⟨some "skipped_no_python",
        [.checkCreate .check, .checkCreate .autofix,
         .checkUpdate .check .success skippedSummary skippedSummary,
         .checkUpdate .autofix .success skippedSummary skippedSummary],
        ledger⟩ := by
    unfold handlerMain
    rw [hTok, hCreate1, hCreate2, hFiles]
    simp [hNoPy]
  exact ⟨hmain, fun b => by rw [hmain]; simp⟩

/-- Witness for C3 at a concrete README-only event. -/
theorem C3_witness :
    handlerMain handlerEnvSkipW [] ctxW 42 =
      ⟨some "skipped_no_python",
        [.checkCreate .check, .checkCreate .autofix,
         .checkUpdate .check .success skippedSummary skippedSummary,
         .checkUpdate .autofix .success skippedSummary skippedSummary],
        []⟩ ∧
    Effect.pipelineRun true ∉ (handlerMain handlerEnvSkipW [] ctxW 42).effects ∧
    Effect.pipelineRun false ∉ (handlerMain handlerEnvSkipW [] ctxW 42).effects :=
  let h := C3_skip_no_python_changes handlerEnvSkipW [] ctxW 42 "tok" 9 9 ["README.md"]
    rfl rfl rfl rfl (by decide)
  ⟨h.1, h.2 true, h.2 false⟩

/-- C6 counterexample: with the non-validating extractor variant, a
payload whose required HTML URL cannot be extracted (it is absent, so
the validating extractor rejects the payload) still leads to both
check-run create calls. -/
theorem C6_counterexample :
    extractPullRequestContext payloadMissingUrlW = none ∧
    Effect.checkCreate .check ∈ (handlePullRequestEventNV handlerEnvNVW []).effects ∧
    Effect.checkCreate .autofix ∈ (handlePullRequestEventNV handlerEnvNVW []).effects := by
  decide

/-- C6 amended: with the validating extractor variant, every payload
from which a required context field cannot be extracted makes the
handler return with no effects at all — zero check-run API calls. -/
theorem C6_validating_rejects_without_api_calls (env : HandlerEnv) (ledger : Ledger)
    (hCtx : extractPullRequestContext env.payload = none) :
    handlePullRequestEvent env ledger = ⟨none, [], ledger⟩ := by
  unfold handlePullRequestEvent
  cases ha : env.payload.action with
  | none => rfl
  | some action =>
      rw [hCtx]
      split
      · rfl
      · split
        · rfl
        · split
          · rfl
          · rfl

/-- Witness for C6's amended statement at the concrete payload
missing its HTML URL. -/
theorem C6_witness :
    handlePullRequestEvent handlerEnvNVW [] = ⟨none, [], []⟩ :=
  C6_validating_rejects_without_api_calls handlerEnvNVW [] (by decide)

/-- C2 counterexample: at a concrete event where the pipeline throws
after both check runs were opened, the later variant's catch block
finalizes BOTH check runs with conclusion failure — the pair is
{failure, failure}, not {failure, neutral}. -/
theorem C2_counterexample :
    (handlePullRequestEvent handlerEnvErrW []).usage = some "error" ∧
    Effect.checkCreate .check ∈ (handlePullRequestEvent handlerEnvErrW []).effects ∧
    Effect.checkCreate .autofix ∈ (handlePullRequestEvent handlerEnvErrW []).effects ∧
    effectsUpdateConclusions (handlePullRequestEvent handlerEnvErrW []).effects =
      [(CheckName.check, Conclusion.failure), (CheckName.autofix, Conclusion.failure)] := by
  decide

/-- C2 amended: on a caught top-level error with both check runs
opened, the later variant's catch issues exactly two finalizations,
both with conclusion failure; the earlier variant's catch
(`finalizeCheckRuns("neutral", ..., overriding CI/check to failure)`)
was the one that produced the pair {failure, neutral}. -/
theorem C2_amended_catch_finalizes_both_failure (env : HandlerEnv) (ledger : Ledger)
    (ctx : PullRequestContext) (effects : List Effect) (e : HandlerError) :
    effectsUpdateConclusions (handlerCatch env ledger ctx effects e).effects =
      effectsUpdateConclusions effects ++
        [(CheckName.check, Conclusion.failure), (CheckName.autofix, Conclusion.failure)] ∧
    (finalizeConclusion .failure laterCatchOverride .check = .failure ∧
     finalizeConclusion .failure laterCatchOverride .autofix = .failure) ∧
    (finalizeConclusion .neutral earlierCatchOverride .check = .failure ∧
     finalizeConclusion .neutral earlierCatchOverride .autofix = .neutral) := by
  refine ⟨?_, ⟨rfl, rfl⟩, ⟨rfl, rfl⟩⟩
  simp only [handlerCatch]
  by_cases hp :
      (safePostPullRequestComment ledger ctx.owner ctx.repo ctx.pullNumber ctx.headSha
        env.postCommentOk).1 = true <;>
    simp [hp, effectsUpdateConclusions, List.filterMap_append]

end Autofix
